import Mathlib

/-!
Verification of the Shariah audit assistant's core pipeline
(`shariah_audit_assistant.py`): the structured-output parser
(`_safe_parse_json`), structured extraction (`extract_structured_data`),
per-clause compliance checking (`check_clause_compliance`), keyword
classification (`classify_severity`, `classify_violation_category`), the
retry wrapper (`safe_invoke`) and the audit orchestrator
(`audit_product_description`).

The Python code is shallowly embedded: strings are `List Char`, JSON data is
the inductive `JValue`, Python dicts are association lists with unique keys,
Python exceptions are an explicit `PyErr` type threaded through `Except`, and
the external LLM / vector-store services are oracle functions supplied as
parameters.  JSON numbers are modelled as integers: none of the verified
properties involve fractional literals, and the parser rejects a fractional
or exponent suffix where Python would build a float.
-/

/-! ## Character and list utilities -/

/-- Backtick character, written via its code point. -/
def bq : Char := Char.ofNat 96

/-- Single-quote character, written via its code point. -/
def sqc : Char := Char.ofNat 39

/-- Double-quote character. -/
def dq : Char := Char.ofNat 34

/-- Backslash character. -/
def bsl : Char := Char.ofNat 92

/-- Opening brace character, written via its code point. -/
def obr : Char := Char.ofNat 123

/-- Closing brace character, written via its code point. -/
def cbr : Char := Char.ofNat 125

/-- JSON / Python `re` whitespace (ASCII fragment; the embedded texts are
ASCII). -/
def isWsChar (c : Char) : Bool :=
  c = ' ' || c = '\t' || c = '\n' || c = '\r' || c = '\x0b' || c = '\x0c'

/-- Does `p` occur at the head of `s`? -/
def startsWith : List Char → List Char → Bool
  | [], _ => true
  | _ :: _, [] => false
  | p :: ps, c :: cs => p = c && startsWith ps cs

/-- Split `s` at the first occurrence of `pat`, returning the part before the
occurrence and the part after it.  This is the matching engine behind the
`re` searches of `_safe_parse_json` (leftmost occurrence semantics). -/
def splitAtSub (pat : List Char) : List Char → Option (List Char × List Char)
  | [] => if startsWith pat [] then some ([], []) else none
  | c :: cs =>
    if startsWith pat (c :: cs) then some ([], (c :: cs).drop pat.length)
    else match splitAtSub pat cs with
         | some (a, b) => some (c :: a, b)
         | none => none

/-- Substring test (`pat in s` in Python), via `splitAtSub`. -/
def containsSub (pat s : List Char) : Bool := (splitAtSub pat s).isSome

/-- Python `str.strip()`: remove leading and trailing whitespace. -/
def pyStrip (s : List Char) : List Char :=
  ((s.dropWhile isWsChar).reverse.dropWhile isWsChar).reverse

/-- Python `str.replace(pat, rep)`: replace every non-overlapping occurrence,
scanning left to right.  Fuel is the input length; each step consumes at
least one character (the patterns used by the source are nonempty, and the
degenerate empty pattern never arises there). -/
def pyReplaceAux (pat rep : List Char) : Nat → List Char → List Char
  | 0, s => s
  | f + 1, s =>
    match s with
    | [] => []
    | c :: cs =>
      if pat ≠ [] && startsWith pat (c :: cs) then
        rep ++ pyReplaceAux pat rep f ((c :: cs).drop pat.length)
      else
        c :: pyReplaceAux pat rep f cs

/-- Python `str.replace`, entry point. -/
def pyReplace (pat rep s : List Char) : List Char :=
  pyReplaceAux pat rep s.length s

/-- Python `str.lower()` (ASCII fragment, which is all the keyword rules
inspect). -/
def pyLower (s : List Char) : List Char := s.map Char.toLower

/-! ## JSON values (`JValue`)

The data produced by Python's `json.loads`: objects are association lists in
insertion order with unique keys (Python dict semantics). -/

inductive JValue where
  | null : JValue
  | bool : Bool → JValue
  | num : Int → JValue
  | str : String → JValue
  | arr : List JValue → JValue
  | obj : List (String × JValue) → JValue

/-- Is the value a mapping (a Python `dict`)? -/
def JValue.isObj : JValue → Bool
  | .obj _ => true
  | _ => false

/-- Lookup in an association list (Python `d[k]` / `d.get(k)` on a dict with
unique keys). -/
def jlookup (fs : List (String × JValue)) (k : String) : Option JValue :=
  match fs with
  | [] => none
  | (k', v) :: rest => if k' = k then some v else jlookup rest k

/-- Python `d[k] = v` on a dict: overwrite in place if the key exists
(keeping its original position), otherwise append. -/
def objInsert (fs : List (String × JValue)) (k : String) (v : JValue) :
    List (String × JValue) :=
  match fs with
  | [] => [(k, v)]
  | (k', v') :: rest =>
    if k' = k then (k', v) :: rest else (k', v') :: objInsert rest k v

/-- Python truthiness of a JSON-shaped value (`if not result["compliant"]`,
`all(...)` operate on truthiness, not on booleans). -/
def truthy : JValue → Bool
  | .null => false
  | .bool b => b
  | .num n => n ≠ 0
  | .str s => !s.isEmpty
  | .arr xs => !xs.isEmpty
  | .obj fs => !fs.isEmpty

/-! ## `json.loads` -/

/-- Skip JSON whitespace (space, tab, newline, carriage return), as Python's
decoder does between tokens. -/
def skipWs : List Char → List Char
  | [] => []
  | c :: cs => if c = ' ' || c = '\t' || c = '\n' || c = '\r' then skipWs cs else c :: cs

/-- Value of a hex digit, if the character is one. -/
def hexVal (c : Char) : Option Nat :=
  if '0' ≤ c ∧ c ≤ '9' then some (c.toNat - 48)
  else if 'a' ≤ c ∧ c ≤ 'f' then some (c.toNat - 87)
  else if 'A' ≤ c ∧ c ≤ 'F' then some (c.toNat - 55)
  else none

/-- Decode the body of a JSON string literal after the opening quote, up to
and including the closing quote.  Fuel-based (one unit per decoded
character; callers pass the remaining input's length, which always
suffices).  Python's strict decoder rejects raw control
characters and unknown escapes; `\\uXXXX` escapes outside the surrogate range
decode to the corresponding character (the lone-surrogate corner, which
Python's `str` can represent and Lean's `Char` cannot, is rejected and is
exercised by none of the verified properties). -/
def parseStringRest : Nat → List Char → Option (List Char × List Char)
  | 0, _ => none
  | f + 1, s =>
    match s with
    | [] => none
    | c :: cs =>
      if c = dq then some ([], cs)
      else if c = bsl then
        match cs with
        | [] => none
        | e :: cs' =>
          if e = dq then (parseStringRest f cs').map (fun p => (dq :: p.1, p.2))
          else if e = bsl then (parseStringRest f cs').map (fun p => (bsl :: p.1, p.2))
          else if e = '/' then (parseStringRest f cs').map (fun p => ('/' :: p.1, p.2))
          else if e = 'b' then (parseStringRest f cs').map (fun p => ('\x08' :: p.1, p.2))
          else if e = 'f' then (parseStringRest f cs').map (fun p => ('\x0c' :: p.1, p.2))
          else if e = 'n' then (parseStringRest f cs').map (fun p => ('\n' :: p.1, p.2))
          else if e = 'r' then (parseStringRest f cs').map (fun p => ('\x0d' :: p.1, p.2))
          else if e = 't' then (parseStringRest f cs').map (fun p => ('\t' :: p.1, p.2))
          else if e = 'u' then
            match cs' with
            | h1 :: h2 :: h3 :: h4 :: cs'' =>
              match hexVal h1, hexVal h2, hexVal h3, hexVal h4 with
              | some d1, some d2, some d3, some d4 =>
                let n := ((d1 * 16 + d2) * 16 + d3) * 16 + d4
                if n.isValidChar then
                  (parseStringRest f cs'').map (fun p => (Char.ofNat n :: p.1, p.2))
                else none
              | _, _, _, _ => none
            | _ => none
          else none
      else if c.toNat < 32 then none
      else (parseStringRest f cs).map (fun p => (c :: p.1, p.2))

/-- Accumulate a run of decimal digits (the scanner has already seen a
leading nonzero digit, carried in `acc`). -/
def parseDigits : List Char → Nat → Nat × List Char
  | [], acc => (acc, [])
  | c :: cs, acc =>
    if c.isDigit then parseDigits cs (acc * 10 + (c.toNat - 48)) else (acc, c :: cs)

/-- The integer part of a JSON number: `0`, or a nonzero digit followed by
more digits (Python's grammar `0|[1-9]\d*`; a leading zero terminates the
numeral immediately, making `01` fail at the following delimiter exactly as
it does in Python). -/
def parseIntPart : List Char → Option (Nat × List Char)
  | [] => none
  | c :: cs =>
    if c = '0' then some (0, cs)
    else if c.isDigit then some (parseDigits cs (c.toNat - 48)) else none

/-- After an integer literal, a fraction or exponent suffix would make Python
produce a float; the integer model rejects it (and a digit cannot occur here,
see `parseIntPart`). -/
def numTerminates : List Char → Bool
  | [] => true
  | c :: _ => !(c.isDigit || c = '.' || c = 'e' || c = 'E')

/-- Parse a JSON number (integer model). -/
def parseNumber (s : List Char) : Option (JValue × List Char) :=
  match s with
  | [] => none
  | c :: cs =>
    if c = '-' then
      match parseIntPart cs with
      | some (n, rest) =>
        if numTerminates rest then some (.num (-(n : Int)), rest) else none
      | none => none
    else
      match parseIntPart (c :: cs) with
      | some (n, rest) =>
        if numTerminates rest then some (.num (n : Int), rest) else none
      | none => none

mutual

/-- Parse one JSON value.  Fuel bounds the recursion depth; `jloads` supplies
enough for its input.  Mirrors Python's strict decoder: the only value
forms are strings, objects, arrays, `true`/`false`/`null` and numbers. -/
def parseValue : Nat → List Char → Option (JValue × List Char)
  | 0, _ => none
  | f + 1, s =>
    match skipWs s with
    | [] => none
    | c :: cs =>
      if c = dq then (parseStringRest cs.length cs).map (fun p => (.str (String.mk p.1), p.2))
      else if c = obr then
        match skipWs cs with
        | c2 :: cs2 => if c2 = cbr then some (.obj [], cs2) else parseMembers f cs []
        | [] => parseMembers f cs []
      else if c = '[' then
        match skipWs cs with
        | c2 :: cs2 => if c2 = ']' then some (.arr [], cs2) else parseItems f cs []
        | [] => parseItems f cs []
      else if c = 't' then
        if startsWith ['r', 'u', 'e'] cs then some (.bool true, cs.drop 3) else none
      else if c = 'f' then
        if startsWith ['a', 'l', 's', 'e'] cs then some (.bool false, cs.drop 4) else none
      else if c = 'n' then
        if startsWith ['u', 'l', 'l'] cs then some (.null, cs.drop 3) else none
      else if c = '-' || c.isDigit then parseNumber (c :: cs)
      else none

/-- Parse the members of a nonempty JSON object (after the opening brace).
Duplicate keys follow Python dict semantics via `objInsert`. -/
def parseMembers : Nat → List Char → List (String × JValue) →
    Option (JValue × List Char)
  | 0, _, _ => none
  | f + 1, s, acc =>
    match skipWs s with
    | [] => none
    | c :: cs =>
      if c = dq then
        match parseStringRest cs.length cs with
        | none => none
        | some (k, r1) =>
          match skipWs r1 with
          | [] => none
          | d0 :: r2 =>
            if d0 = ':' then
              match parseValue f r2 with
              | none => none
              | some (v, r3) =>
                match skipWs r3 with
                | [] => none
                | d :: r4 =>
                  if d = ',' then parseMembers f r4 (objInsert acc (String.mk k) v)
                  else if d = cbr then some (.obj (objInsert acc (String.mk k) v), r4)
                  else none
            else none
      else none

/-- Parse the items of a nonempty JSON array (after the opening bracket). -/
def parseItems : Nat → List Char → List JValue → Option (JValue × List Char)
  | 0, _, _ => none
  | f + 1, s, acc =>
    match parseValue f s with
    | none => none
    | some (v, r) =>
      match skipWs r with
      | [] => none
      | d :: r2 =>
        if d = ',' then parseItems f r2 (acc ++ [v])
        else if d = ']' then some (.arr (acc ++ [v]), r2)
        else none

end

/-- `json.loads`: parse the whole text as one JSON value with nothing but
whitespace around it. -/
def jloads (s : List Char) : Option JValue :=
  match parseValue (2 * s.length + 2) s with
  | some (v, rest) => if skipWs rest = [] then some v else none
  | none => none

/-! ## Serialization (spec-modelled)

The repository contains no serializer; §8 of the spec pairs `parse` with a
`serialize` producing "valid structured data". -/

/-- Decimal digit character (explicit table, so digit round-trips are
case-checkable). -/
def digitChar : Nat → Char
  | 0 => '0'
  | 1 => '1'
  | 2 => '2'
  | 3 => '3'
  | 4 => '4'
  | 5 => '5'
  | 6 => '6'
  | 7 => '7'
  | 8 => '8'
  | 9 => '9'
  | _ => '*'

/-- Hexadecimal digit character. -/
def hexDigitChar (n : Nat) : Char :=
  if n < 10 then digitChar n
  else if n = 10 then 'a'
  else if n = 11 then 'b'
  else if n = 12 then 'c'
  else if n = 13 then 'd'
  else if n = 14 then 'e'
  else if n = 15 then 'f'
  else '*'

/-- Decimal digits of a natural number, most significant first.  Fuel-based
so that it evaluates by kernel reduction; the fuel `n + 1` always suffices
since the argument shrinks by a factor of ten each step. -/
def natCharsAux : Nat → Nat → List Char
  | 0, _ => []
  | f + 1, n => if n < 10 then [digitChar n] else natCharsAux f (n / 10) ++ [digitChar (n % 10)]

/-- Decimal digits of a natural number, most significant first. -/
def natChars (n : Nat) : List Char := natCharsAux (n + 1) n

/-- Decimal representation of an integer. -/
def intChars (n : Int) : List Char :=
  if n < 0 then '-' :: natChars n.natAbs else natChars n.natAbs

/-- JSON string escaping for one character: quote, backslash and control
characters are escaped (named escapes for the common controls, `\u00XX`
otherwise); every other character is emitted literally. -/
def escapeChar (c : Char) : List Char :=
  if c = dq then [bsl, dq]
  else if c = bsl then [bsl, bsl]
  else if c = '\n' then [bsl, 'n']
  else if c = '\t' then [bsl, 't']
  else if c = '\x0d' then [bsl, 'r']
  else if c = '\x08' then [bsl, 'b']
  else if c = '\x0c' then [bsl, 'f']
  else if c.toNat < 32 then
    [bsl, 'u', '0', '0', hexDigitChar (c.toNat / 16), hexDigitChar (c.toNat % 16)]
  else [c]

/-- Escape a whole string body. -/
def escapeStr (s : List Char) : List Char := (s.map escapeChar).flatten

mutual

/-- Modelled from the spec: `serialize`, the inverse the spec's round-trip
property pairs with `parse` (the repository itself never serializes).
Canonical JSON output: double-quoted escaped strings, `,` and `:`
separators, no inserted whitespace. -/
def serializeVal : JValue → List Char
  | .null => "null".toList
  | .bool true => "true".toList
  | .bool false => "false".toList
  | .num n => intChars n
  | .str s => dq :: escapeStr s.toList ++ [dq]
  | .arr [] => ['[', ']']
  | .arr (x :: xs) => '[' :: (serializeVal x ++ serializeItems xs) ++ [']']
  | .obj [] => [obr, cbr]
  | .obj ((k, v) :: kvs) =>
    obr :: ((dq :: escapeStr k.toList ++ [dq]) ++
      ':' :: serializeVal v ++ serializeMembers kvs) ++ [cbr]

/-- Continuation of a nonempty array: `,`-separated further items. -/
def serializeItems : List JValue → List Char
  | [] => []
  | x :: xs => ',' :: (serializeVal x ++ serializeItems xs)

/-- Continuation of a nonempty object: `,`-separated further members. -/
def serializeMembers : List (String × JValue) → List Char
  | [] => []
  | (k, v) :: kvs =>
    ',' :: ((dq :: escapeStr k.toList ++ [dq]) ++
      ':' :: serializeVal v ++ serializeMembers kvs)

end

/-- Key lists without duplicates. -/
def keysUnique : List String → Bool
  | [] => true
  | k :: ks => !(ks.contains k) && keysUnique ks

mutual

/-- Well-formed JSON data: every object has pairwise-distinct keys — exactly
the values Python dicts can denote ("valid structured data"). -/
def jwf : JValue → Bool
  | .null => true
  | .bool _ => true
  | .num _ => true
  | .str _ => true
  | .arr xs => jwfList xs
  | .obj fs => keysUnique (fs.map (fun kv => kv.1)) && jwfMembers fs

/-- All array elements well-formed. -/
def jwfList : List JValue → Bool
  | [] => true
  | x :: xs => jwf x && jwfList xs

/-- All member values well-formed. -/
def jwfMembers : List (String × JValue) → Bool
  | [] => true
  | (_, v) :: kvs => jwf v && jwfMembers kvs

end

/-! ## `_safe_parse_json` -/

/-- The triple-backtick fence delimiter. -/
def fence3 : List Char := [bq, bq, bq]

/-- The bodies of all fenced code blocks, in document order: the groups of
`re.findall` for the fenced-block regex (optional `json` tag, then greedy
whitespace — which can never include a backtick — then the lazy body up to
the first closing fence; scanning resumes after the closing fence). -/
def fencedBlocks : Nat → List Char → List (List Char)
  | 0, _ => []
  | f + 1, s =>
    match splitAtSub fence3 s with
    | none => []
    | some (_, rest1) =>
      let rest2 := if startsWith ['j', 's', 'o', 'n'] rest1 then rest1.drop 4 else rest1
      let rest3 := rest2.dropWhile isWsChar
      match splitAtSub fence3 rest3 with
      | none => []
      | some (body, rest4) => body :: fencedBlocks f rest4

/-- The prefix of `s` up to and including its last closing brace, if any. -/
def takeToLastBrace (s : List Char) : Option (List Char) :=
  match s.reverse.dropWhile (fun c => c != cbr) with
  | [] => none
  | r :: rs => some ((r :: rs).reverse)

/-- The unique candidate of the greedy brace-span regex: from the first
opening brace to the last closing brace of the text, provided that closing
brace comes after the opening one.  (Greedy `[\s\S]*` reaches the last `}`;
after that match no `}` remains, so `findall` yields at most this one
match, and no later `{` could start a match the first could not.) -/
def braceSpan (s : List Char) : Option (List Char) :=
  match s.dropWhile (fun c => c != obr) with
  | [] => none
  | t :: ts => takeToLastBrace (t :: ts)

/-- Run `json.loads(candidate.strip())` over the candidates, first success
wins — the loop of `_safe_parse_json`, whose `except` clause catches exactly
the decode failures. -/
def tryCandidates : List (List Char) → Option JValue
  | [] => none
  | c :: cs =>
    match jloads (pyStrip c) with
    | some v => some v
    | none => tryCandidates cs

/-- `_safe_parse_json`: fenced-block candidates, then the brace-span
candidate; on failure, the single-quote → double-quote and
`True`/`False` → `true`/`false` textual repair over the whole text followed
by one more brace-span parse; otherwise the empty dict.  The returned value
is whatever the first successful `json.loads` produced — not necessarily a
mapping. -/
def safe_parse_json (text : List Char) : JValue :=
  let candidates := fencedBlocks text.length text ++
    (match braceSpan text with
     | some m => [m]
     | none => [])
  match tryCandidates candidates with
  | some v => v
  | none =>
    let fixed := pyReplace ['F', 'a', 'l', 's', 'e'] ['f', 'a', 'l', 's', 'e']
      (pyReplace ['T', 'r', 'u', 'e'] ['t', 'r', 'u', 'e']
        (pyReplace [sqc] [dq] text))
    match braceSpan fixed with
    | some m =>
      match jloads m with
      | some v => v
      | none => .obj []
    | none => .obj []

example : jloads ("\x7b\"a\": 1\x7d".toList) = some (.obj [("a", .num 1)]) := rfl
example : jloads ("[1, -20, \"x\", true, null]".toList) =
    some (.arr [.num 1, .num (-20), .str "x", .bool true, .null]) := rfl
example : jloads ("\x7b\"a\": \x7b\"b\": []\x7d, \"c\": 2\x7d".toList) =
    some (.obj [("a", .obj [("b", .arr [])]), ("c", .num 2)]) := rfl
example : jloads ("1.5".toList) = none := rfl
example : jloads ("01".toList) = none := rfl
example : jloads ("not json".toList) = none := rfl
example : jloads ("\"a\\nb\\u0041\"".toList) = some (.str "a\nbA") := rfl
example : safe_parse_json ("no structure here".toList) = .obj [] := rfl

example : safe_parse_json (fence3 ++ "json\n\x7b\"k\": true\x7d\n".toList ++ fence3) =
    .obj [("k", .bool true)] := rfl
example : safe_parse_json ("prose \x7b\"k\": 3\x7d trailing".toList) =
    .obj [("k", .num 3)] := rfl
example : safe_parse_json (fence3 ++ "\ntrue\n".toList ++ fence3) = .bool true := rfl
example :
    safe_parse_json ('\x7b' :: sqc :: "status".toList ++ sqc :: ':' :: ' ' :: sqc ::
      "True".toList ++ [sqc, '\x7d']) = .obj [("status", .str "true")] := rfl
example : serializeVal (.obj [("a", .num (-3)), ("b", .str "x\"y")]) =
    "\x7b\"a\":-3,\"b\":\"x\\\"y\"\x7d".toList := rfl
example : jloads (serializeVal (.obj [("a", .num (-3)), ("b", .str "x\"y")])) =
    some (.obj [("a", .num (-3)), ("b", .str "x\"y")]) := rfl
example : safe_parse_json (serializeVal (.obj [("a", .str (String.mk (fence3 ++ ['0'] ++ fence3)))])) = .num 0 := rfl

/-! ## Python exceptions and the retry wrapper `safe_invoke` -/

/-- The exception classes the embedded code can raise or observe. -/
inductive PyErr where
  | valueError : PyErr
  | typeError : PyErr
  | attributeError : PyErr
  | keyError : String → PyErr
  | other : PyErr
deriving DecidableEq

/-- Is the exception in the class retried by
`retry_if_exception_type(ValueError)`? -/
def isValueError : PyErr → Bool
  | .valueError => true
  | _ => false

/-- The wait tenacity computes after failed attempt `n` (1-based) under
`wait_exponential(multiplier=1, min=2, max=30)`: the exponential clamped
into `[min, max]`. -/
def wait_exponential_val (n : Nat) : Nat := max 2 (min (2 ^ n) 30)

/-- The retry loop of the `@retry(...)` decorator on `safe_invoke`:
`f i` is the outcome of attempt `i` (0-based) of the wrapped LLM call,
`budget` the number of retries still allowed (`stop_after_attempt(5)` gives
an initial budget of 4).  Returns the final outcome and the number of
attempts made.  A `ValueError` is retried while budget remains; any other
exception propagates at once. -/
def safe_invoke_from (f : Nat → Except PyErr String) : Nat → Nat →
    Except PyErr String × Nat
  | i, 0 => (f i, i + 1)
  | i, budget + 1 =>
    match f i with
    | .ok v => (.ok v, i + 1)
    | .error e => if isValueError e then safe_invoke_from f (i + 1) budget else (.error e, i + 1)

/-- `safe_invoke(llm, prompt)`: the final outcome (the failure surfaced
after the attempts are exhausted is the last attempt's exception; tenacity
wraps it in a `RetryError`, a distinction none of the verified properties
depend on). -/
def safe_invoke (f : Nat → Except PyErr String) : Except PyErr String :=
  (safe_invoke_from f 0 4).1

/-- How many attempts `safe_invoke` makes. -/
def safe_invoke_attempts (f : Nat → Except PyErr String) : Nat :=
  (safe_invoke_from f 0 4).2

/-! ## `extract_structured_data` -/

/-- The default-valued `ExtractedProduct` dict of `extract_structured_data`. -/
def defaultExtract : List (String × JValue) :=
  [("product_type", .null),
   ("main_parties", .arr []),
   ("contract_type", .null),
   ("key_clauses", .arr []),
   ("financial_terms", .arr []),
   ("suspicious_terms", .arr [])]

/-- Python `\x7b**d, **p\x7d` on dicts: the keys of `d` in order (values
overridden by `p` where present), then the keys of `p` not in `d`, in
order. -/
def pyDictMerge (d p : List (String × JValue)) : List (String × JValue) :=
  d.map (fun kv =>
    match jlookup p kv.1 with
    | some v => (kv.1, v)
    | none => kv) ++
  p.filter (fun kv => (jlookup d kv.1).isNone)

/-- Merging the parsed value onto the defaults; a non-mapping parse result
makes the double-splat raise `TypeError`, exactly as Python does. -/
def mergeDefaults : JValue → Except PyErr (List (String × JValue))
  | .obj fs => .ok (pyDictMerge defaultExtract fs)
  | _ => .error .typeError

/-- `extract_structured_data`: one direct `llm.invoke` call (attempt 0 of
the oracle; the call is NOT routed through `safe_invoke` in the source),
then `_safe_parse_json`, then the default merge. -/
def extract_structured_data (invoke : Nat → Except PyErr String) :
    Except PyErr (List (String × JValue)) :=
  match invoke 0 with
  | .error e => .error e
  | .ok resp => mergeDefaults (safe_parse_json resp.toList)

/-! ## `check_clause_compliance`, `find_source_for_clause`,
`suggest_improvement` -/

/-- The fail-closed assessment built when the compliance response is not
strict JSON. -/
def failClosed (clause : JValue) : JValue :=
  .obj [("clause", clause),
        ("compliant", .bool false),
        ("reason", .str "Failed to parse compliance data")]

/-- `check_clause_compliance`: gateway call through `safe_invoke`, then a
single strict `json.loads` whose decode failure produces the fail-closed
record.  A successful parse is returned as-is, whatever value it is. -/
def check_clause_compliance (invoke : Nat → Except PyErr String)
    (clause : JValue) : Except PyErr JValue :=
  match safe_invoke invoke with
  | .error e => .error e
  | .ok resp =>
    match jloads resp.toList with
    | some v => .ok v
    | none => .ok (failClosed clause)

/-- A document returned by the vector store: provenance metadata (absent
metadata falls back to `"unknown"`) and page content. -/
structure SearchDoc where
  source : Option String
  page_content : String

/-- `find_source_for_clause`, applied to the outcome of
`similarity_search(clause, k=1)`: first hit's source name and a 300-character
excerpt; an empty result or ANY exception yields `None` (the broad
`except Exception` of the source). -/
def find_source_for_clause (search : Except PyErr (List SearchDoc)) :
    Option (List (String × JValue)) :=
  match search with
  | .error _ => none
  | .ok [] => none
  | .ok (doc :: _) =>
    some [("source_doc", .str (doc.source.getD "unknown")),
          ("source_text", .str (String.mk (doc.page_content.toList.take 300)))]

/-- `suggest_improvement`: gateway call through `safe_invoke`, then
`.strip()`. -/
def suggest_improvement (invoke : Nat → Except PyErr String) :
    Except PyErr String :=
  match safe_invoke invoke with
  | .error e => .error e
  | .ok r => .ok (String.mk (pyStrip r.toList))

/-! ## Keyword classification -/

/-- Python `sub in s` on strings. -/
def pyContainsStr (pat s : String) : Bool := containsSub pat.toList s.toList

/-- Python `s.lower()`. -/
def pyLowerStr (s : String) : String := String.mk (pyLower s.toList)

/-- `classify_severity`: first-match keyword rules over the lowercased
reason text. -/
def classify_severity (reason_text : String) : String :=
  let reason := pyLowerStr reason_text
  if pyContainsStr "riba" reason then "high"
  else if pyContainsStr "gharar" reason || pyContainsStr "uncertainty" reason then "medium"
  else if pyContainsStr "minor issue" reason || pyContainsStr "technicality" reason then "low"
  else "low"

/-- `classify_violation_category`: first-match keyword rules over the
lowercased reason text. -/
def classify_violation_category (reason_text : String) : String :=
  let reason := pyLowerStr reason_text
  if pyContainsStr "riba" reason then "riba"
  else if pyContainsStr "gharar" reason || pyContainsStr "uncertainty" reason then "gharar"
  else if pyContainsStr "haram activity" reason || pyContainsStr "prohibited sector" reason then
    "haram activities"
  else if pyContainsStr "maysir" reason then "maysir"
  else "other"

/-! ## The audit orchestrator -/

/-- Python `x[k]` for a string key: a dict lookup (raising `KeyError` when
absent), `TypeError` on any non-dict. -/
def pyGetItem (v : JValue) (k : String) : Except PyErr JValue :=
  match v with
  | .obj fs =>
    match jlookup fs k with
    | some x => .ok x
    | none => .error (.keyError k)
  | _ => .error .typeError

/-- Python `result.update(info)`: dict update in place; `AttributeError` on
a non-dict receiver. -/
def dictUpdate (v : JValue) (info : List (String × JValue)) :
    Except PyErr JValue :=
  match v with
  | .obj fs => .ok (.obj (info.foldl (fun acc kv => objInsert acc kv.1 kv.2) fs))
  | _ => .error .attributeError

/-- Python `d[k] = x` on a value known to be a dict (the orchestrator only
reaches these assignments after `result["compliant"]` has succeeded, which
guarantees a dict; the non-dict branch is unreachable there). -/
def jset (v : JValue) (k : String) (x : JValue) : JValue :=
  match v with
  | .obj fs => .obj (objInsert fs k x)
  | other => other

/-- Python iteration `for clause in suspicious_terms`: lists yield their
elements, strings their characters, dicts their keys; other values raise
`TypeError`. -/
def pyIter : JValue → Except PyErr (List JValue)
  | .arr xs => .ok xs
  | .str s => .ok (s.toList.map (fun c => .str (String.mk [c])))
  | .obj fs => .ok (fs.map (fun kv => .str kv.1))
  | _ => .error .typeError

/-- The external services an audit consults: the extraction LLM call, the
per-clause compliance LLM call, the vector-store lookup, and the per-clause
remediation LLM call.  LLM oracles are indexed by attempt number (the code
itself chooses how many attempts to consume). -/
structure AuditEnv where
  extractInvoke : Nat → Except PyErr String
  complianceInvoke : JValue → Nat → Except PyErr String
  sourceSearch : JValue → Except PyErr (List SearchDoc)
  suggestInvoke : JValue → Nat → Except PyErr String

/-- One iteration of the per-clause loop of `audit_product_description`:
compliance check, source attribution (attached only on a hit), and — when
the result is not truthy-compliant — severity, category and suggested fix. -/
def processClause (env : AuditEnv) (clause : JValue) : Except PyErr JValue :=
  match check_clause_compliance (env.complianceInvoke clause) clause with
  | .error e => .error e
  | .ok result0 =>
    match (match find_source_for_clause (env.sourceSearch clause) with
           | some info => dictUpdate result0 info
           | none => .ok result0) with
    | .error e => .error e
    | .ok result1 =>
      match pyGetItem result1 "compliant" with
      | .error e => .error e
      | .ok cv =>
        if truthy cv then .ok result1
        else
          match pyGetItem result1 "reason" with
          | .error e => .error e
          | .ok rv =>
            match rv with
            | .str reasonS =>
              match suggest_improvement (env.suggestInvoke clause) with
              | .error e => .error e
              | .ok fix =>
                .ok (jset (jset (jset result1
                      "severity" (.str (classify_severity reasonS)))
                      "category" (.str (classify_violation_category reasonS)))
                      "suggested_fix" (.str fix))
            | _ => .error .attributeError

/-- The whole per-clause loop, in order. -/
def processClauses (env : AuditEnv) : List JValue → Except PyErr (List JValue)
  | [] => .ok []
  | c :: cs =>
    match processClause env c with
    | .error e => .error e
    | .ok r =>
      match processClauses env cs with
      | .error e => .error e
      | .ok rs => .ok (r :: rs)

/-- The truthiness of each result's `"compliant"` entry, as read by both the
`violations` comprehension and the `all(...)` generator (the accesses are
pure and repeatable, so one pass suffices). -/
def aggregateFlags : List JValue → Except PyErr (List (JValue × Bool))
  | [] => .ok []
  | r :: rs =>
    match pyGetItem r "compliant" with
    | .error e => .error e
    | .ok x =>
      match aggregateFlags rs with
      | .error e => .error e
      | .ok t => .ok ((r, truthy x) :: t)

/-- The record returned by `audit_product_description`. -/
structure Verdict where
  product_summary : List (String × JValue)
  suspicious_clauses : List JValue
  violations : List JValue
  overall_compliance : Bool

/-- `audit_product_description`: extraction, the per-clause loop over
`suspicious_terms`, then aggregation into the verdict. -/
def audit_product_description (env : AuditEnv) : Except PyErr Verdict :=
  match extract_structured_data env.extractInvoke with
  | .error e => .error e
  | .ok sd =>
    match pyIter ((jlookup sd "suspicious_terms").getD (.arr [])) with
    | .error e => .error e
    | .ok clauses =>
      match processClauses env clauses with
      | .error e => .error e
      | .ok results =>
        match aggregateFlags results with
        | .error e => .error e
        | .ok flags =>
          .ok { product_summary := sd
              , suspicious_clauses := results
              , violations := (flags.filter (fun p => !p.2)).map (fun p => p.1)
              , overall_compliance := flags.all (fun p => p.2) }

/-- The `"compliant"` truthiness of a finished assessment (total reading:
a record an audit actually returned always carries the entry). -/
def compliantFlag (r : JValue) : Bool :=
  match pyGetItem r "compliant" with
  | .ok x => truthy x
  | .error _ => false

def envTest0 : AuditEnv :=
  { extractInvoke := fun _ => .ok "\x7b\x7d"
  , complianceInvoke := fun _ _ => .ok "nope"
  , sourceSearch := fun _ => .ok []
  , suggestInvoke := fun _ _ => .ok " fix " }

example : audit_product_description envTest0 =
    .ok { product_summary := defaultExtract
        , suspicious_clauses := []
        , violations := []
        , overall_compliance := true } := rfl

def envTest1 : AuditEnv :=
  { extractInvoke := fun _ => .ok "\x7b\"suspicious_terms\": [\"early payment penalty\"]\x7d"
  , complianceInvoke := fun _ _ => .ok "not json at all"
  , sourceSearch := fun _ => .ok [{ source := some "default_principles.pdf", page_content := "Riba is prohibited." }]
  , suggestInvoke := fun _ _ => .ok " replace with late-payment charity clause " }

example : audit_product_description envTest1 =
    .ok { product_summary :=
            [("product_type", .null), ("main_parties", .arr []),
             ("contract_type", .null), ("key_clauses", .arr []),
             ("financial_terms", .arr []),
             ("suspicious_terms", .arr [.str "early payment penalty"])]
        , suspicious_clauses :=
            [.obj [("clause", .str "early payment penalty"),
                   ("compliant", .bool false),
                   ("reason", .str "Failed to parse compliance data"),
                   ("source_doc", .str "default_principles.pdf"),
                   ("source_text", .str "Riba is prohibited."),
                   ("severity", .str "low"),
                   ("category", .str "other"),
                   ("suggested_fix", .str "replace with late-payment charity clause")]]
        , violations :=
            [.obj [("clause", .str "early payment penalty"),
                   ("compliant", .bool false),
                   ("reason", .str "Failed to parse compliance data"),
                   ("source_doc", .str "default_principles.pdf"),
                   ("source_text", .str "Riba is prohibited."),
                   ("severity", .str "low"),
                   ("category", .str "other"),
                   ("suggested_fix", .str "replace with late-payment charity clause")]]
        , overall_compliance := false } := rfl

/-! ## Association-list lemmas -/

theorem jlookup_append (a b : List (String × JValue)) (k : String) :
    jlookup (a ++ b) k =
      match jlookup a k with
      | some v => some v
      | none => jlookup b k := by
  induction a with
  | nil => simp [jlookup]
  | cons kv a ih =>
    obtain ⟨k', v'⟩ := kv
    by_cases h : k' = k <;> simp [jlookup, h, ih]

theorem jlookup_objInsert (fs : List (String × JValue)) (k k' : String) (v : JValue) :
    jlookup (objInsert fs k v) k' =
      if k = k' then some v else jlookup fs k' := by
  induction fs with
  | nil =>
    by_cases h : k = k' <;> simp [objInsert, jlookup, h]
  | cons kv fs ih =>
    obtain ⟨k1, v1⟩ := kv
    simp only [objInsert]
    by_cases h1 : k1 = k
    · subst h1
      by_cases h2 : k1 = k' <;> simp [jlookup, h2]
    · simp only [if_neg h1]
      by_cases h2 : k1 = k'
      · subst h2
        have hkk : ¬ k = k1 := fun hh => h1 hh.symm
        simp [jlookup, hkk]
      · simp [jlookup, h2, ih]

theorem aggregateFlags_eq (rs : List JValue) (fl : List (JValue × Bool))
    (h : aggregateFlags rs = .ok fl) :
    fl = rs.map (fun r => (r, compliantFlag r)) := by
  induction rs generalizing fl with
  | nil =>
    simp [aggregateFlags] at h
    simp [h.symm]
  | cons r rs ih =>
    rw [aggregateFlags] at h
    cases hx : pyGetItem r "compliant" with
    | error e => rw [hx] at h; exact absurd h (by simp)
    | ok x =>
      rw [hx] at h
      cases ht : aggregateFlags rs with
      | error e => rw [ht] at h; exact absurd h (by simp)
      | ok t =>
        rw [ht] at h
        have ht' := ih t ht
        have hfl : fl = (r, truthy x) :: t := by
          cases h; rfl
        subst hfl
        simp [List.map, ht', compliantFlag, hx]

theorem flags_filter_map (l : List JValue) :
    ((l.map (fun r => (r, compliantFlag r))).filter (fun p => !p.2)).map
        (fun p => p.1) =
      l.filter (fun r => !compliantFlag r) := by
  induction l with
  | nil => simp
  | cons r l ih =>
    by_cases h : compliantFlag r <;> simp [List.filter, h, ih]

theorem flags_all (l : List JValue) :
    (l.map (fun r => (r, compliantFlag r))).all (fun p => p.2) =
      l.all compliantFlag := by
  induction l with
  | nil => simp
  | cons r l ih => simp [List.all_cons, ih]

/-! ## Claim C1 -/

/-- C1: for every product text (every environment), the verdict returned by
`audit_product_description` has `overall_compliance` equal to the logical AND
of the compliant flags of all per-clause assessments (vacuously true when
there are none), and its `violations` list is exactly the subset of
assessments whose compliant flag is false. -/
theorem C1_overall_is_and_violations_are_filter (env : AuditEnv) (v : Verdict)
    (h : audit_product_description env = .ok v) :
    v.overall_compliance = v.suspicious_clauses.all compliantFlag ∧
    v.violations = v.suspicious_clauses.filter (fun r => !compliantFlag r) := by
  unfold audit_product_description at h
  split at h
  · simp at h
  next sd h1 =>
    split at h
    · simp at h
    next clauses h2 =>
      split at h
      · simp at h
      next results h3 =>
        split at h
        · simp at h
        next flags h4 =>
          have hv : v = { product_summary := sd
                        , suspicious_clauses := results
                        , violations := (flags.filter (fun p => !p.2)).map (fun p => p.1)
                        , overall_compliance := flags.all (fun p => p.2) } := by
            cases h; rfl
          subst hv
          have hfl := aggregateFlags_eq results flags h4
          subst hfl
          exact ⟨flags_all results, flags_filter_map results⟩

/-- The spec's empty-suspicious-terms scenario environment: the extraction
response carries no fields, so `suspicious_terms` defaults to the empty
list. -/
def envEmptyTerms : AuditEnv :=
  { extractInvoke := fun _ => .ok "\x7b\x7d"
  , complianceInvoke := fun _ _ => .ok "irrelevant"
  , sourceSearch := fun _ => .ok []
  , suggestInvoke := fun _ _ => .ok "irrelevant" }

/-- The verdict of `envEmptyTerms`. -/
def emptyTermsVerdict : Verdict :=
  { product_summary := defaultExtract
  , suspicious_clauses := []
  , violations := []
  , overall_compliance := true }

/-- Witness for C1, on the spec's scenario: the empty suspicious-terms audit
returns a verdict, the theorem applies, and the aggregation indeed gives
`overall_compliance = true` and `violations = []`. -/
theorem C1_overall_is_and_violations_are_filter_witness :
    audit_product_description envEmptyTerms = .ok emptyTermsVerdict ∧
    (emptyTermsVerdict.overall_compliance =
        emptyTermsVerdict.suspicious_clauses.all compliantFlag ∧
      emptyTermsVerdict.violations =
        emptyTermsVerdict.suspicious_clauses.filter (fun r => !compliantFlag r)) ∧
    emptyTermsVerdict.overall_compliance = true ∧
    emptyTermsVerdict.violations = [] :=
  ⟨rfl, C1_overall_is_and_violations_are_filter envEmptyTerms emptyTermsVerdict rfl,
    rfl, rfl⟩

/-! ## Claim C2 -/

/-- C2: if the compliance-check gateway call succeeds but its response is
not strict JSON, `check_clause_compliance` returns exactly the fail-closed
record for that clause — `compliant = false`, `reason = "Failed to parse
compliance data"` — and that record's compliant flag is false (never a
compliant assessment from an unparseable response). -/
theorem C2_unparseable_response_fails_closed
    (invoke : Nat → Except PyErr String) (clause : JValue) (resp : String)
    (hok : safe_invoke invoke = .ok resp)
    (hbad : jloads resp.toList = none) :
    check_clause_compliance invoke clause = .ok (failClosed clause) ∧
    failClosed clause =
      .obj [("clause", clause),
            ("compliant", .bool false),
            ("reason", .str "Failed to parse compliance data")] ∧
    compliantFlag (failClosed clause) = false := by
  refine ⟨?_, rfl, rfl⟩
  simp only [check_clause_compliance, hok, hbad]

/-- Witness for C2: a malformed (non-JSON) compliance response on a concrete
clause. -/
theorem C2_unparseable_response_fails_closed_witness :
    safe_invoke (fun _ => .ok "Sure! The clause seems fine.") =
      .ok "Sure! The clause seems fine." ∧
    jloads "Sure! The clause seems fine.".toList = none ∧
    (check_clause_compliance (fun _ => .ok "Sure! The clause seems fine.")
        (.str "deferred payment penalty") =
      .ok (failClosed (.str "deferred payment penalty")) ∧
    failClosed (.str "deferred payment penalty") =
      .obj [("clause", .str "deferred payment penalty"),
            ("compliant", .bool false),
            ("reason", .str "Failed to parse compliance data")] ∧
    compliantFlag (failClosed (.str "deferred payment penalty")) = false) :=
  ⟨rfl, rfl,
    C2_unparseable_response_fails_closed (fun _ => .ok "Sure! The clause seems fine.")
      (.str "deferred payment penalty") "Sure! The clause seems fine." rfl rfl⟩

/-! ## Claim C3 -/

/-- C3: for every reason text, severity classification returns `"high"` when
the lowercased text contains `"riba"`, otherwise `"medium"` when it contains
`"gharar"` or `"uncertainty"`, otherwise `"low"` (including the empty text,
which contains no keyword); and category classification returns `"riba"`,
`"gharar"`, `"haram activities"`, `"maysir"` or `"other"` by the analogous
first-match rules. -/
theorem C3_keyword_classification (t : String) :
    (pyContainsStr "riba" (pyLowerStr t) = true →
      classify_severity t = "high") ∧
    (pyContainsStr "riba" (pyLowerStr t) = false →
      (pyContainsStr "gharar" (pyLowerStr t) ||
        pyContainsStr "uncertainty" (pyLowerStr t)) = true →
      classify_severity t = "medium") ∧
    (pyContainsStr "riba" (pyLowerStr t) = false →
      pyContainsStr "gharar" (pyLowerStr t) = false →
      pyContainsStr "uncertainty" (pyLowerStr t) = false →
      classify_severity t = "low") ∧
    (pyContainsStr "riba" (pyLowerStr t) = true →
      classify_violation_category t = "riba") ∧
    (pyContainsStr "riba" (pyLowerStr t) = false →
      (pyContainsStr "gharar" (pyLowerStr t) ||
        pyContainsStr "uncertainty" (pyLowerStr t)) = true →
      classify_violation_category t = "gharar") ∧
    (pyContainsStr "riba" (pyLowerStr t) = false →
      pyContainsStr "gharar" (pyLowerStr t) = false →
      pyContainsStr "uncertainty" (pyLowerStr t) = false →
      (pyContainsStr "haram activity" (pyLowerStr t) ||
        pyContainsStr "prohibited sector" (pyLowerStr t)) = true →
      classify_violation_category t = "haram activities") ∧
    (pyContainsStr "riba" (pyLowerStr t) = false →
      pyContainsStr "gharar" (pyLowerStr t) = false →
      pyContainsStr "uncertainty" (pyLowerStr t) = false →
      pyContainsStr "haram activity" (pyLowerStr t) = false →
      pyContainsStr "prohibited sector" (pyLowerStr t) = false →
      pyContainsStr "maysir" (pyLowerStr t) = true →
      classify_violation_category t = "maysir") ∧
    (pyContainsStr "riba" (pyLowerStr t) = false →
      pyContainsStr "gharar" (pyLowerStr t) = false →
      pyContainsStr "uncertainty" (pyLowerStr t) = false →
      pyContainsStr "haram activity" (pyLowerStr t) = false →
      pyContainsStr "prohibited sector" (pyLowerStr t) = false →
      pyContainsStr "maysir" (pyLowerStr t) = false →
      classify_violation_category t = "other") := by
  refine ⟨?_, ?_, ?_, ?_, ?_, ?_, ?_, ?_⟩ <;>
    intro _ <;>
    simp_all [classify_severity, classify_violation_category]

/-- Witness for C3: the spec's three scenario reason texts, plus the empty
text. -/
theorem C3_keyword_classification_witness :
    classify_severity "This violates riba prohibition" = "high" ∧
    classify_violation_category "This violates riba prohibition" = "riba" ∧
    classify_severity "excessive gharar/uncertainty present" = "medium" ∧
    classify_violation_category "excessive gharar/uncertainty present" = "gharar" ∧
    classify_severity "minor technicality" = "low" ∧
    classify_violation_category "minor technicality" = "other" ∧
    classify_severity "" = "low" :=
  ⟨(C3_keyword_classification "This violates riba prohibition").1 rfl,
   (C3_keyword_classification "This violates riba prohibition").2.2.2.1 rfl,
   (C3_keyword_classification "excessive gharar/uncertainty present").2.1 rfl rfl,
   (C3_keyword_classification "excessive gharar/uncertainty present").2.2.2.2.1 rfl rfl,
   (C3_keyword_classification "minor technicality").2.2.1 rfl rfl rfl,
   (C3_keyword_classification "minor technicality").2.2.2.2.2.2.2 rfl rfl rfl rfl rfl rfl,
   (C3_keyword_classification "").2.2.1 rfl rfl rfl⟩

/-! ## Claim C7 -/

/-- C7 (amended): calls routed through `safe_invoke` (the compliance check
and the remediation suggestion) retry on the transient class (`ValueError`)
with exponential backoff whose waits are clamped into `[2, 30]`, making up
to 5 attempts before surfacing the failure, and a non-retryable failure
propagates immediately after a single attempt; the extraction call, however,
is not routed through `safe_invoke` and performs no retry at all — its
outcome depends only on the first attempt of its oracle. -/
theorem C7_retry_policy :
    (∀ n : Nat, 2 ≤ wait_exponential_val n ∧ wait_exponential_val n ≤ 30) ∧
    (∀ (f : Nat → Except PyErr String) (e : PyErr), f 0 = .error e →
      isValueError e = false →
      safe_invoke f = .error e ∧ safe_invoke_attempts f = 1) ∧
    (∀ f : Nat → Except PyErr String,
      (∀ i, i < 5 → ∃ e, f i = .error e ∧ isValueError e = true) →
      (∃ e, safe_invoke f = .error e ∧ isValueError e = true) ∧
        safe_invoke_attempts f = 5) ∧
    (∀ (f : Nat → Except PyErr String) (k : Nat), k < 5 →
      (∀ i, i < k → ∃ e, f i = .error e ∧ isValueError e = true) →
      (∀ v, f k = .ok v → safe_invoke f = .ok v)) ∧
    (∀ f g : Nat → Except PyErr String, f 0 = g 0 →
      extract_structured_data f = extract_structured_data g) := by
  refine ⟨?_, ?_, ?_, ?_, ?_⟩
  · intro n
    constructor
    · exact Nat.le_max_left _ _
    · exact Nat.max_le.mpr ⟨by norm_num, Nat.min_le_right _ _⟩
  · intro f e h0 hnv
    simp [safe_invoke, safe_invoke_attempts, safe_invoke_from, h0, hnv]
  · intro f h
    obtain ⟨e0, he0, hv0⟩ := h 0 (by norm_num)
    obtain ⟨e1, he1, hv1⟩ := h 1 (by norm_num)
    obtain ⟨e2, he2, hv2⟩ := h 2 (by norm_num)
    obtain ⟨e3, he3, hv3⟩ := h 3 (by norm_num)
    obtain ⟨e4, he4, hv4⟩ := h 4 (by norm_num)
    refine ⟨⟨e4, ?_, hv4⟩, ?_⟩ <;>
      simp [safe_invoke, safe_invoke_attempts, safe_invoke_from,
        he0, hv0, he1, hv1, he2, hv2, he3, hv3, he4]
  · intro f k hk hfail v hok
    interval_cases k
    · simp [safe_invoke, safe_invoke_from, hok]
    · obtain ⟨e0, he0, hv0⟩ := hfail 0 (by norm_num)
      simp [safe_invoke, safe_invoke_from, he0, hv0, hok]
    · obtain ⟨e0, he0, hv0⟩ := hfail 0 (by norm_num)
      obtain ⟨e1, he1, hv1⟩ := hfail 1 (by norm_num)
      simp [safe_invoke, safe_invoke_from, he0, hv0, he1, hv1, hok]
    · obtain ⟨e0, he0, hv0⟩ := hfail 0 (by norm_num)
      obtain ⟨e1, he1, hv1⟩ := hfail 1 (by norm_num)
      obtain ⟨e2, he2, hv2⟩ := hfail 2 (by norm_num)
      simp [safe_invoke, safe_invoke_from, he0, hv0, he1, hv1, he2, hv2, hok]
    · obtain ⟨e0, he0, hv0⟩ := hfail 0 (by norm_num)
      obtain ⟨e1, he1, hv1⟩ := hfail 1 (by norm_num)
      obtain ⟨e2, he2, hv2⟩ := hfail 2 (by norm_num)
      obtain ⟨e3, he3, hv3⟩ := hfail 3 (by norm_num)
      simp [safe_invoke, safe_invoke_from, he0, hv0, he1, hv1, he2, hv3, he3, hv2, hok]
  · intro f g hfg
    unfold extract_structured_data
    rw [hfg]

/-- An oracle whose first attempt fails with the retryable class and whose
later attempts succeed. -/
def c7Oracle : Nat → Except PyErr String :=
  fun i => if i = 0 then .error .valueError else .ok "\x7b\x7d"

/-- Counterexample to C7 as stated: the extraction-critical gateway call
surfaces a retryable (`ValueError`) failure after a single attempt — it
performs no retry — even though the retry policy the claim describes (and
which `safe_invoke` implements) would succeed on the second attempt. -/
theorem C7_retry_policy_counterexample :
    extract_structured_data c7Oracle = .error PyErr.valueError ∧
    isValueError PyErr.valueError = true ∧
    safe_invoke c7Oracle = .ok "\x7b\x7d" ∧
    safe_invoke_attempts c7Oracle = 2 :=
  ⟨rfl, rfl, rfl, rfl⟩

/-- An oracle that always fails with a retryable error. -/
def c7AlwaysValueError : Nat → Except PyErr String := fun _ => .error .valueError

/-- An oracle that fails immediately with a non-retryable error. -/
def c7AuthError : Nat → Except PyErr String := fun _ => .error .other

/-- Witness for C7: the wait bounds at a concrete attempt, immediate
propagation of a non-retryable failure, exhaustion after exactly 5 attempts
on persistent retryable failures, and success on attempt 2 of
`c7Oracle`. -/
theorem C7_retry_policy_witness :
    (2 ≤ wait_exponential_val 1 ∧ wait_exponential_val 1 ≤ 30) ∧
    (safe_invoke c7AuthError = .error PyErr.other ∧
      safe_invoke_attempts c7AuthError = 1) ∧
    ((∃ e, safe_invoke c7AlwaysValueError = .error e ∧ isValueError e = true) ∧
      safe_invoke_attempts c7AlwaysValueError = 5) ∧
    safe_invoke c7Oracle = .ok "\x7b\x7d" ∧
    extract_structured_data c7Oracle = extract_structured_data c7Oracle :=
  ⟨C7_retry_policy.1 1,
   C7_retry_policy.2.1 c7AuthError .other rfl rfl,
   C7_retry_policy.2.2.1 c7AlwaysValueError
     (fun _ _ => ⟨.valueError, rfl, rfl⟩),
   C7_retry_policy.2.2.2.1 c7Oracle 1 (by norm_num)
     (fun i hi => ⟨.valueError, by interval_cases i; rfl, rfl⟩) "\x7b\x7d" rfl,
   C7_retry_policy.2.2.2.2 c7Oracle c7Oracle rfl⟩

/-! ## Claim C5 -/

/-- A fenced code block whose body is the bare JSON literal `true`. -/
def fencedTrueText : List Char := fence3 ++ "\ntrue\n".toList ++ fence3

/-- C5 fails on the code: for a fenced block containing bare JSON `true`,
`_safe_parse_json` returns the parsed boolean — not a mapping — although its
own annotation (`-> Dict[str, Any]`), the spec's contract and its caller's
`\x7b**default, **parsed\x7d` merge all require a mapping.  The fallback
behaviour the claim also describes (empty mapping when nothing parses) does
hold. -/
theorem C5_nonmapping_return :
    safe_parse_json fencedTrueText = JValue.bool true ∧
    (JValue.bool true).isObj = false ∧
    safe_parse_json "no structured content at all".toList = .obj [] :=
  ⟨rfl, rfl, rfl⟩

/-! ## Claim C10 -/

/-- The repair-branch probe: a near-JSON text whose string value is the
single-quoted literal `True`. -/
def c10Input : List Char :=
  '\x7b' :: sqc :: "status".toList ++ sqc :: ':' :: ' ' :: sqc ::
    "True".toList ++ [sqc, '\x7d']

/-- C10: the repair step's single-quote and capitalized-boolean replacements
apply to the entire text, inside string values included: this input's
embedded literal is `True` (single-quoted), yet the mapping `parse` returns
holds the string `"true"` — a string that occurs nowhere in the input. -/
theorem C10_repair_rewrites_string_values :
    safe_parse_json c10Input = .obj [("status", JValue.str "true")] ∧
    containsSub "True".toList c10Input = true ∧
    containsSub "true".toList c10Input = false :=
  ⟨rfl, rfl, rfl⟩

/-! ## Claim C8 -/

theorem jlookup_mapped (d p : List (String × JValue)) (k : String) :
    jlookup (d.map (fun kv =>
        match jlookup p kv.1 with
        | some v => (kv.1, v)
        | none => kv)) k =
      match jlookup d k with
      | some v =>
        some (match jlookup p k with
              | some w => w
              | none => v)
      | none => none := by
  induction d with
  | nil => simp [jlookup]
  | cons kv d ih =>
    obtain ⟨k1, v1⟩ := kv
    by_cases h : k1 = k
    · subst h
      cases hp : jlookup p k1 <;> simp [jlookup, hp]
    · cases hp : jlookup p k1 <;> simp [jlookup, hp, h, ih]

theorem jlookup_filterNew (d p : List (String × JValue)) (k : String) :
    jlookup (p.filter (fun kv => (jlookup d kv.1).isNone)) k =
      if (jlookup d k).isNone then jlookup p k else none := by
  induction p with
  | nil => simp [jlookup]
  | cons kv p ih =>
    obtain ⟨k1, v1⟩ := kv
    by_cases h : k1 = k
    · subst h
      cases hd : (jlookup d k1).isNone <;>
        simp [List.filter, jlookup, hd, ih]
    · cases hd : (jlookup d k1).isNone <;>
        simp [List.filter, jlookup, hd, h, ih]

/-- The double-splat merge looks keys up in the override dict first, falling
back to the base dict. -/
theorem jlookup_pyDictMerge (d p : List (String × JValue)) (k : String) :
    jlookup (pyDictMerge d p) k =
      match jlookup p k with
      | some v => some v
      | none => jlookup d k := by
  unfold pyDictMerge
  rw [jlookup_append, jlookup_mapped, jlookup_filterNew]
  cases hd : jlookup d k <;> cases hp : jlookup p k <;> simp [hd, hp]

/-- C8 (amended): whenever the extraction response parses to a mapping, the
returned `ExtractedProduct` record is the default merge: every field missing
from the parsed mapping takes its default value (null for the scalar fields,
the empty list for the list fields), and every field present in the parsed
mapping — an explicit null included — overrides the default.  (So an
explicitly null field is passed through to downstream logic rather than
replaced by its default; see the counterexample.) -/
theorem C8_defaults_fill_missing_fields
    (f : Nat → Except PyErr String) (resp : String)
    (parsed : List (String × JValue))
    (hf : f 0 = .ok resp)
    (hp : safe_parse_json resp.toList = .obj parsed) :
    extract_structured_data f = .ok (pyDictMerge defaultExtract parsed) ∧
    (∀ k, jlookup parsed k = none →
      jlookup (pyDictMerge defaultExtract parsed) k = jlookup defaultExtract k) ∧
    (∀ k x, jlookup parsed k = some x →
      jlookup (pyDictMerge defaultExtract parsed) k = some x) := by
  refine ⟨?_, ?_, ?_⟩
  · simp only [extract_structured_data, hf, hp, mergeDefaults]
  · intro k hk
    rw [jlookup_pyDictMerge, hk]
  · intro k x hk
    rw [jlookup_pyDictMerge, hk]

/-- An environment whose extraction response sets `suspicious_terms` to an
explicit JSON null. -/
def envNullTerms : AuditEnv :=
  { extractInvoke := fun _ => .ok "\x7b\"suspicious_terms\": null\x7d"
  , complianceInvoke := fun _ _ => .ok "\x7b\x7d"
  , sourceSearch := fun _ => .ok []
  , suggestInvoke := fun _ _ => .ok "" }

/-- The record `extract_structured_data` produces for that response. -/
def nullTermsRecord : List (String × JValue) :=
  [("product_type", .null),
   ("main_parties", .arr []),
   ("contract_type", .null),
   ("key_clauses", .arr []),
   ("financial_terms", .arr []),
   ("suspicious_terms", .null)]

/-- Counterexample to C8 as stated: for the extraction response
`\x7b"suspicious_terms": null\x7d` the returned record carries an explicit
null — not the default empty list — in `suspicious_terms`, and the very next
downstream step of the audit receives that null and aborts with a
`TypeError` while iterating it.  Null does propagate into downstream
logic. -/
theorem C8_defaults_fill_missing_fields_counterexample :
    extract_structured_data envNullTerms.extractInvoke = .ok nullTermsRecord ∧
    jlookup nullTermsRecord "suspicious_terms" = some JValue.null ∧
    jlookup defaultExtract "suspicious_terms" = some (JValue.arr []) ∧
    audit_product_description envNullTerms = .error PyErr.typeError :=
  ⟨rfl, rfl, rfl, rfl⟩

/-- Witness for C8 (amended), at a concrete response that omits every field
except `product_type`: the omitted fields default, the present field
overrides. -/
theorem C8_defaults_fill_missing_fields_witness :
    extract_structured_data (fun _ => .ok "\x7b\"product_type\": \"Murabaha\"\x7d") =
      .ok (pyDictMerge defaultExtract [("product_type", .str "Murabaha")]) ∧
    jlookup (pyDictMerge defaultExtract [("product_type", .str "Murabaha")])
      "suspicious_terms" = some (JValue.arr []) ∧
    jlookup (pyDictMerge defaultExtract [("product_type", .str "Murabaha")])
      "product_type" = some (JValue.str "Murabaha") := by
  have h := C8_defaults_fill_missing_fields
    (fun _ => .ok "\x7b\"product_type\": \"Murabaha\"\x7d")
    "\x7b\"product_type\": \"Murabaha\"\x7d"
    [("product_type", .str "Murabaha")] rfl rfl
  exact ⟨h.1, h.2.1 "suspicious_terms" rfl, h.2.2 "product_type" (.str "Murabaha") rfl⟩

/-! ## Claims C4 and C9: the fail-closed per-clause path -/

theorem processClause_failClosed (env : AuditEnv) (clause : JValue)
    (resp fix : String)
    (hresp : safe_invoke (env.complianceInvoke clause) = .ok resp)
    (hbad : jloads resp.toList = none)
    (hfix : safe_invoke (env.suggestInvoke clause) = .ok fix) :
    ∃ r, processClause env clause = .ok r ∧
      pyGetItem r "clause" = .ok clause ∧
      pyGetItem r "compliant" = .ok (.bool false) := by
  have hcc : check_clause_compliance (env.complianceInvoke clause) clause =
      .ok (failClosed clause) := by
    simp only [check_clause_compliance, hresp, hbad]
  cases hss : env.sourceSearch clause with
  | error e =>
    refine ⟨.obj [("clause", clause), ("compliant", .bool false),
      ("reason", .str "Failed to parse compliance data"),
      ("severity", .str (classify_severity "Failed to parse compliance data")),
      ("category", .str (classify_violation_category "Failed to parse compliance data")),
      ("suggested_fix", .str (String.mk (pyStrip fix.toList)))], ?_, rfl, rfl⟩
    simp only [processClause, hcc, find_source_for_clause, hss,
      suggest_improvement, hfix]
    rfl
  | ok docs =>
    cases docs with
    | nil =>
      refine ⟨.obj [("clause", clause), ("compliant", .bool false),
        ("reason", .str "Failed to parse compliance data"),
        ("severity", .str (classify_severity "Failed to parse compliance data")),
        ("category", .str (classify_violation_category "Failed to parse compliance data")),
        ("suggested_fix", .str (String.mk (pyStrip fix.toList)))], ?_, rfl, rfl⟩
      simp only [processClause, hcc, find_source_for_clause, hss,
        suggest_improvement, hfix]
      rfl
    | cons doc rest =>
      refine ⟨.obj [("clause", clause), ("compliant", .bool false),
        ("reason", .str "Failed to parse compliance data"),
        ("source_doc", .str (doc.source.getD "unknown")),
        ("source_text", .str (String.mk (doc.page_content.toList.take 300))),
        ("severity", .str (classify_severity "Failed to parse compliance data")),
        ("category", .str (classify_violation_category "Failed to parse compliance data")),
        ("suggested_fix", .str (String.mk (pyStrip fix.toList)))], ?_, rfl, rfl⟩
      simp only [processClause, hcc, find_source_for_clause, hss,
        suggest_improvement, hfix]
      rfl

theorem processClauses_failClosed (env : AuditEnv) (clauses : List JValue)
    (hc : ∀ c ∈ clauses, ∃ resp, safe_invoke (env.complianceInvoke c) = .ok resp ∧
      jloads resp.toList = none)
    (hs : ∀ c ∈ clauses, ∃ fix, safe_invoke (env.suggestInvoke c) = .ok fix) :
    ∃ results, processClauses env clauses = .ok results ∧
      results.length = clauses.length ∧
      ∀ i (h1 : i < results.length) (h2 : i < clauses.length),
        pyGetItem (results.get ⟨i, h1⟩) "clause" = .ok (clauses.get ⟨i, h2⟩) ∧
        pyGetItem (results.get ⟨i, h1⟩) "compliant" = .ok (.bool false) := by
  induction clauses with
  | nil =>
    exact ⟨[], rfl, rfl, fun i h1 _ => absurd h1 (Nat.not_lt_zero i)⟩
  | cons c cs ih =>
    obtain ⟨resp, hresp, hbad⟩ := hc c (List.mem_cons_self _ _)
    obtain ⟨fix, hfix⟩ := hs c (List.mem_cons_self _ _)
    obtain ⟨r, hr, hrc, hrcomp⟩ := processClause_failClosed env c resp fix hresp hbad hfix
    obtain ⟨rs, hrs, hlen, hidx⟩ :=
      ih (fun c' hc' => hc c' (List.mem_cons_of_mem _ hc'))
         (fun c' hc' => hs c' (List.mem_cons_of_mem _ hc'))
    refine ⟨r :: rs, ?_, ?_, ?_⟩
    · simp only [processClauses, hr, hrs]
    · simp [hlen]
    · intro i h1 h2
      cases i with
      | zero => exact ⟨hrc, hrcomp⟩
      | succ j =>
        exact hidx j (by simpa using h1) (by simpa using h2)

theorem aggregateFlags_exists (rs : List JValue)
    (h : ∀ r ∈ rs, ∃ x, pyGetItem r "compliant" = .ok x) :
    ∃ fl, aggregateFlags rs = .ok fl := by
  induction rs with
  | nil => exact ⟨[], rfl⟩
  | cons r rs ih =>
    obtain ⟨x, hx⟩ := h r (List.mem_cons_self _ _)
    obtain ⟨fl, hfl⟩ := ih (fun r' h' => h r' (List.mem_cons_of_mem _ h'))
    exact ⟨(r, truthy x) :: fl, by simp only [aggregateFlags, hx, hfl]⟩

/-- C4 (amended): a per-clause compliance-response parse failure and a
source-attribution miss or index error degrade only that clause's record and
never abort the audit (the source oracle is entirely unconstrained below,
and every response is unparseable, yet the audit returns a complete verdict
with one record per clause); and a failure of the initial extraction call
aborts the audit, surfacing the error to the caller.  A
remediation-suggestion failure, however, also aborts the whole audit — see
the counterexample — so it is removed from the never-aborts list; the
suggestion calls are assumed to succeed below. -/
theorem C4_failure_containment :
    (∀ (env : AuditEnv) (e : PyErr), env.extractInvoke 0 = .error e →
      audit_product_description env = .error e) ∧
    (∀ (env : AuditEnv) (sd : List (String × JValue)) (clauses : List JValue),
      extract_structured_data env.extractInvoke = .ok sd →
      pyIter ((jlookup sd "suspicious_terms").getD (.arr [])) = .ok clauses →
      (∀ c ∈ clauses, ∃ resp, safe_invoke (env.complianceInvoke c) = .ok resp ∧
        jloads resp.toList = none) →
      (∀ c ∈ clauses, ∃ fix, safe_invoke (env.suggestInvoke c) = .ok fix) →
      ∃ v, audit_product_description env = .ok v ∧
        v.suspicious_clauses.length = clauses.length) := by
  constructor
  · intro env e h
    simp only [audit_product_description, extract_structured_data, h]
  · intro env sd clauses hsd hiter hc hs
    obtain ⟨results, hres, hlen, hidx⟩ := processClauses_failClosed env clauses hc hs
    obtain ⟨fl, hfl⟩ := aggregateFlags_exists results (by
      intro r hr
      obtain ⟨n, hn⟩ := List.mem_iff_get.mp hr
      exact ⟨.bool false, hn ▸ (hidx n n.isLt (hlen ▸ n.isLt)).2⟩)
    refine ⟨{ product_summary := sd
            , suspicious_clauses := results
            , violations := (fl.filter (fun p => !p.2)).map (fun p => p.1)
            , overall_compliance := fl.all (fun p => p.2) }, ?_, ?_⟩
    · simp only [audit_product_description, hsd, hiter, hres, hfl]
    · simpa using hlen

/-- An environment whose single clause is non-compliant and whose
remediation-suggestion calls always fail with the transient error class
(the gateway exhausts its retries). -/
def envSuggestFails : AuditEnv :=
  { extractInvoke := fun _ =>
      .ok "\x7b\"suspicious_terms\": [\"penalty interest\"]\x7d"
  , complianceInvoke := fun _ _ =>
      .ok "\x7b\"clause\": \"penalty interest\", \"compliant\": false, \"reason\": \"riba\"\x7d"
  , sourceSearch := fun _ => .ok []
  , suggestInvoke := fun _ _ => .error .valueError }

/-- Counterexample to C4 as stated: with extraction, compliance checking and
source lookup all well-behaved, a remediation-suggestion failure (retries
exhausted) aborts the whole audit instead of degrading the clause's
record. -/
theorem C4_failure_containment_counterexample :
    audit_product_description envSuggestFails = .error PyErr.valueError :=
  rfl

/-- Witness for C4: the empty-extraction abort at a concrete environment,
and the fail-closed one-clause audit of `envTest1`'s shape returning a
one-record verdict. -/
theorem C4_failure_containment_witness :
    audit_product_description
      { extractInvoke := fun _ => .error PyErr.other
      , complianceInvoke := fun _ _ => .ok ""
      , sourceSearch := fun _ => .ok []
      , suggestInvoke := fun _ _ => .ok "" } = .error PyErr.other ∧
    ∃ v, audit_product_description envTest1 = .ok v ∧
      v.suspicious_clauses.length =
        [JValue.str "early payment penalty"].length := by
  constructor
  · exact C4_failure_containment.1 _ PyErr.other rfl
  · exact C4_failure_containment.2 envTest1 _ [JValue.str "early payment penalty"]
      rfl rfl
      (fun c hc => ⟨"not json at all", rfl, by
        have : c = JValue.str "early payment penalty" := by simpa using hc
        subst this
        rfl⟩)
      (fun c hc => ⟨" replace with late-payment charity clause ", by
        have : c = JValue.str "early payment penalty" := by simpa using hc
        subst this
        rfl⟩)

/-- C9 (amended): one assessment per suspicious-terms entry, in order; and
whenever a clause's compliance response fails to parse, the fail-closed
assessment's clause text is exactly the queried suspicious-terms entry.  (On
a successful parse the clause text is whatever the response contains, which
need not be among the suspicious terms — see the counterexample.) -/
theorem C9_clause_provenance (env : AuditEnv) (sd : List (String × JValue))
    (clauses : List JValue) (v : Verdict)
    (hsd : extract_structured_data env.extractInvoke = .ok sd)
    (hiter : pyIter ((jlookup sd "suspicious_terms").getD (.arr [])) = .ok clauses)
    (hc : ∀ c ∈ clauses, ∃ resp, safe_invoke (env.complianceInvoke c) = .ok resp ∧
      jloads resp.toList = none)
    (hs : ∀ c ∈ clauses, ∃ fix, safe_invoke (env.suggestInvoke c) = .ok fix)
    (hv : audit_product_description env = .ok v) :
    v.suspicious_clauses.length = clauses.length ∧
    ∀ i (h1 : i < v.suspicious_clauses.length) (h2 : i < clauses.length),
      pyGetItem (v.suspicious_clauses.get ⟨i, h1⟩) "clause" =
        .ok (clauses.get ⟨i, h2⟩) := by
  obtain ⟨results, hres, hlen, hidx⟩ := processClauses_failClosed env clauses hc hs
  obtain ⟨fl, hfl⟩ := aggregateFlags_exists results (by
    intro r hr
    obtain ⟨n, hn⟩ := List.mem_iff_get.mp hr
    exact ⟨.bool false, hn ▸ (hidx n n.isLt (hlen ▸ n.isLt)).2⟩)
  have hv' : audit_product_description env =
      .ok { product_summary := sd
          , suspicious_clauses := results
          , violations := (fl.filter (fun p => !p.2)).map (fun p => p.1)
          , overall_compliance := fl.all (fun p => p.2) } := by
    simp only [audit_product_description, hsd, hiter, hres, hfl]
  rw [hv'] at hv
  have hveq : v.suspicious_clauses = results := by
    cases hv; rfl
  rw [hveq]
  exact ⟨hlen, fun i h1 h2 => (hidx i h1 h2).1⟩

/-- An environment whose compliance response parses but reports a clause
text different from the queried suspicious term. -/
def envFabricated : AuditEnv :=
  { extractInvoke := fun _ => .ok "\x7b\"suspicious_terms\": [\"original clause\"]\x7d"
  , complianceInvoke := fun _ _ =>
      .ok "\x7b\"clause\": \"fabricated clause\", \"compliant\": true, \"reason\": \"fine\"\x7d"
  , sourceSearch := fun _ => .ok []
  , suggestInvoke := fun _ _ => .ok "" }

/-- The assessment `envFabricated`'s audit stores. -/
def fabricatedAssessment : JValue :=
  .obj [("clause", .str "fabricated clause"), ("compliant", .bool true),
        ("reason", .str "fine")]

/-- Counterexample to C9 as stated: the extraction step yields exactly one
suspicious term, `"original clause"`, yet the verdict's only assessment
carries the clause text `"fabricated clause"` taken from the service's JSON
response — a clause text that is not among the suspicious-terms entries. -/
theorem C9_clause_provenance_counterexample :
    audit_product_description envFabricated =
      .ok { product_summary :=
              [("product_type", .null), ("main_parties", .arr []),
               ("contract_type", .null), ("key_clauses", .arr []),
               ("financial_terms", .arr []),
               ("suspicious_terms", .arr [.str "original clause"])]
          , suspicious_clauses := [fabricatedAssessment]
          , violations := []
          , overall_compliance := true } ∧
    pyGetItem fabricatedAssessment "clause" = .ok (.str "fabricated clause") ∧
    "fabricated clause" ≠ "original clause" :=
  ⟨rfl, rfl, by decide⟩

/-- Witness for C9 (amended): on `envTest1` (one suspicious term, compliance
response unparseable) the verdict's only assessment carries exactly the
queried suspicious term as clause text. -/
theorem C9_clause_provenance_witness :
    ∃ v, audit_product_description envTest1 = .ok v ∧
      v.suspicious_clauses.length = 1 ∧
      pyGetItem (v.suspicious_clauses.getD 0 .null) "clause" =
        .ok (.str "early payment penalty") := by
  have h := C9_clause_provenance envTest1 _ [JValue.str "early payment penalty"] _
    rfl rfl
    (fun c hc => ⟨"not json at all", rfl, by
      have : c = JValue.str "early payment penalty" := by simpa using hc
      subst this
      rfl⟩)
    (fun c hc => ⟨" replace with late-payment charity clause ", by
      have : c = JValue.str "early payment penalty" := by simpa using hc
      subst this
      rfl⟩)
    rfl
  refine ⟨_, rfl, ?_, ?_⟩
  · exact h.1
  · have h2 := h.2 0 (by rw [h.1]; norm_num) (by norm_num)
    simpa [List.getD, List.get?] using h2

/-! ## Claim C6: parser/serializer round trip

Infrastructure: a size measure for fuel accounting, then round-trip lemmas
for numbers and strings, then the mutual induction over values. -/

mutual

/-- Structural size of a JSON value (drives fuel bounds and the round-trip
induction). -/
def jsize : JValue → Nat
  | .null => 1
  | .bool _ => 1
  | .num _ => 1
  | .str _ => 1
  | .arr xs => 1 + jsizeList xs
  | .obj fs => 1 + jsizeMembers fs

/-- Size of an array's elements. -/
def jsizeList : List JValue → Nat
  | [] => 1
  | x :: xs => 1 + jsize x + jsizeList xs

/-- Size of an object's members. -/
def jsizeMembers : List (String × JValue) → Nat
  | [] => 1
  | (_, v) :: kvs => 1 + jsize v + jsizeMembers kvs

end

theorem jsize_pos (v : JValue) : 1 ≤ jsize v := by
  cases v <;> simp [jsize]

theorem jsizeList_pos (l : List JValue) : 1 ≤ jsizeList l := by
  cases l <;> (simp [jsizeList]; try omega)

theorem jsizeMembers_pos (l : List (String × JValue)) : 1 ≤ jsizeMembers l := by
  cases l with
  | nil => simp [jsizeMembers]
  | cons kv kvs => obtain ⟨k, v⟩ := kv; simp [jsizeMembers]; omega

/-! ### Numbers -/

theorem parseDigits_stop (rest : List Char) (acc : Nat)
    (h : numTerminates rest = true) : parseDigits rest acc = (acc, rest) := by
  cases rest with
  | nil => rfl
  | cons c cs =>
    simp only [numTerminates, Bool.not_eq_true'] at h
    have hc : c.isDigit = false := by
      cases hd : c.isDigit <;> simp [hd] at h ⊢
    simp [parseDigits, hc]

theorem parseDigits_run (ds rest : List Char) (acc : Nat)
    (hds : ∀ c ∈ ds, c.isDigit = true) (hrest : numTerminates rest = true) :
    parseDigits (ds ++ rest) acc =
      (ds.foldl (fun a c => a * 10 + (c.toNat - 48)) acc, rest) := by
  induction ds generalizing acc with
  | nil => simpa using parseDigits_stop rest acc hrest
  | cons c ds ih =>
    have hc := hds c (List.mem_cons_self _ _)
    simp [parseDigits, hc, ih _ (fun c' h' => hds c' (List.mem_cons_of_mem _ h'))]

theorem digitChar_isDigit (k : Nat) (h : k < 10) : (digitChar k).isDigit = true := by
  interval_cases k <;> decide

theorem digitChar_toNat (k : Nat) (h : k < 10) : (digitChar k).toNat - 48 = k := by
  interval_cases k <;> decide

theorem natCharsAux_fuel (m : Nat) : ∀ f1 f2, m < f1 → m < f2 →
    natCharsAux f1 m = natCharsAux f2 m := by
  induction m using Nat.strong_induction_on with
  | _ m ih =>
    intro f1 f2 h1 h2
    match f1, f2 with
    | g1 + 1, g2 + 1 =>
      by_cases hm : m < 10
      · simp [natCharsAux, hm]
      · have hdiv : m / 10 < m := Nat.div_lt_self (by omega) (by omega)
        simp only [natCharsAux, hm, if_neg]
        rw [ih (m / 10) hdiv g1 g2 (by omega) (by omega)]

theorem natChars_spec : ∀ m, 0 < m →
    ∃ k ds, natChars m = digitChar k :: ds ∧ k < 10 ∧ k ≠ 0 ∧
      (∀ c ∈ ds, c.isDigit = true) ∧
      ds.foldl (fun a c => a * 10 + (c.toNat - 48)) k = m := by
  intro m
  induction m using Nat.strong_induction_on with
  | _ m ih =>
    intro hm
    by_cases h10 : m < 10
    · refine ⟨m, [], ?_, h10, by omega, by simp, by simp⟩
      simp [natChars, natCharsAux, h10]
    · have hdiv : m / 10 < m := Nat.div_lt_self (by omega) (by omega)
      have hdivpos : 0 < m / 10 := Nat.div_pos (by omega) (by omega)
      obtain ⟨k, ds, hrec, hk, hk0, hds, hfold⟩ := ih (m / 10) hdiv hdivpos
      refine ⟨k, ds ++ [digitChar (m % 10)], ?_, hk, hk0, ?_, ?_⟩
      · have hstep : natChars m = natCharsAux m (m / 10) ++ [digitChar (m % 10)] := by
          simp [natChars, natCharsAux, h10]
        rw [hstep, natCharsAux_fuel (m / 10) m (m / 10 + 1) hdiv (by omega)]
        rw [show natCharsAux (m / 10 + 1) (m / 10) = natChars (m / 10) from rfl, hrec]
        rfl
      · intro c hc
        rcases List.mem_append.mp hc with h | h
        · exact hds c h
        · have : c = digitChar (m % 10) := by simpa using h
          subst this
          exact digitChar_isDigit _ (Nat.mod_lt _ (by omega))
      · rw [List.foldl_append, hfold]
        simp only [List.foldl]
        rw [digitChar_toNat _ (Nat.mod_lt _ (by omega))]
        omega

theorem parseIntPart_digitChar (k : Nat) (hk1 : 1 ≤ k) (hk : k < 10)
    (l : List Char) :
    parseIntPart (digitChar k :: l) = some (parseDigits l k) := by
  interval_cases k <;> rfl

theorem parseIntPart_natChars (m : Nat) (rest : List Char)
    (hrest : numTerminates rest = true) :
    parseIntPart (natChars m ++ rest) = some (m, rest) := by
  by_cases hm : m = 0
  · subst hm
    rw [show parseIntPart (natChars 0 ++ rest) = some (0, rest) from rfl]
  · obtain ⟨k, ds, hrec, hk, hk0, hds, hfold⟩ := natChars_spec m (by omega)
    rw [hrec, List.cons_append, parseIntPart_digitChar k (by omega) hk,
      parseDigits_run ds rest k hds hrest, hfold]

theorem parseNumber_digitChar (k : Nat) (hk1 : 1 ≤ k) (hk : k < 10)
    (l : List Char) :
    parseNumber (digitChar k :: l) =
      (if numTerminates (parseDigits l k).2 then
        some (.num ((parseDigits l k).1 : Int), (parseDigits l k).2)
      else none) := by
  interval_cases k <;> rfl

theorem parseNumber_natChars (m : Nat) (rest : List Char)
    (hrest : numTerminates rest = true) :
    parseNumber (natChars m ++ rest) = some (.num (m : Int), rest) := by
  by_cases hm : m = 0
  · subst hm
    rw [show parseNumber (natChars 0 ++ rest) =
        (if numTerminates rest then some (.num ((0 : Nat) : Int), rest) else none)
        from rfl]
    simp [hrest]
  · obtain ⟨k, ds, hrec, hk, hk0, hds, hfold⟩ := natChars_spec m (by omega)
    rw [hrec, List.cons_append, parseNumber_digitChar k (by omega) hk,
      parseDigits_run ds rest k hds hrest]
    simp [hrest, hfold]

theorem parseNumber_intChars (n : Int) (rest : List Char)
    (hrest : numTerminates rest = true) :
    parseNumber (intChars n ++ rest) = some (.num n, rest) := by
  by_cases hn : n < 0
  · simp only [intChars, if_pos hn, List.cons_append]
    rw [show parseNumber ('-' :: (natChars n.natAbs ++ rest)) =
        (match parseIntPart (natChars n.natAbs ++ rest) with
         | some (m, r) =>
           if numTerminates r then some (.num (-(m : Int)), r) else none
         | none => none) from rfl]
    rw [parseIntPart_natChars _ _ hrest]
    simp only [hrest, if_true]
    have hmn : -((n.natAbs : Nat) : Int) = n := by omega
    rw [hmn]
  · simp only [intChars, if_neg hn]
    rw [parseNumber_natChars _ _ hrest]
    have hmn : ((n.natAbs : Nat) : Int) = n := by omega
    rw [hmn]

theorem parseValue_nil_skip (f : Nat) (l : List Char) (h : skipWs l = []) :
    parseValue f l = none := by
  cases f with
  | zero => rfl
  | succ f => simp only [parseValue, h]

theorem parseValue_skip_rsq (f : Nat) (l : List Char) (cs2 : List Char)
    (h : skipWs l = ']' :: cs2) : parseValue f l = none := by
  cases f with
  | zero => rfl
  | succ f =>
    simp only [parseValue, h]
    rfl

theorem parseValue_intChars (f : Nat) (n : Int) (rest : List Char)
    (hrest : numTerminates rest = true) :
    parseValue (f + 1) (intChars n ++ rest) = some (.num n, rest) := by
  by_cases hn : n < 0
  · have hsh : intChars n ++ rest = '-' :: (natChars n.natAbs ++ rest) := by
      simp [intChars, if_pos hn]
    rw [hsh]
    rw [show parseValue (f + 1) ('-' :: (natChars n.natAbs ++ rest)) =
        parseNumber ('-' :: (natChars n.natAbs ++ rest)) from rfl]
    rw [← List.cons_append, ← show intChars n = '-' :: natChars n.natAbs by
      simp [intChars, if_pos hn]]
    exact parseNumber_intChars n rest hrest
  · have hsh : intChars n = natChars n.natAbs := by simp [intChars, if_neg hn]
    rw [hsh]
    by_cases hm : n.natAbs = 0
    · rw [hm]
      rw [show parseValue (f + 1) (natChars 0 ++ rest) =
          parseNumber (natChars 0 ++ rest) from rfl]
      rw [parseNumber_natChars _ _ hrest]
      have hmn : ((0 : Nat) : Int) = n := by omega
      rw [hmn]
    · obtain ⟨k, ds, hrec, hk, hk0, hds, hfold⟩ := natChars_spec n.natAbs (by omega)
      rw [hrec, List.cons_append]
      have hpv : parseValue (f + 1) (digitChar k :: (ds ++ rest)) =
          parseNumber (digitChar k :: (ds ++ rest)) := by
        interval_cases k <;> rfl
      rw [hpv, ← List.cons_append, ← hrec, parseNumber_natChars _ _ hrest]
      have hmn : ((n.natAbs : Nat) : Int) = n := by omega
      rw [hmn]


/-! ### Strings -/

theorem hexVal_hexDigitChar (d : Nat) (h : d < 16) :
    hexVal (hexDigitChar d) = some d := by
  interval_cases d <;> decide

theorem escapeStr_length (s : List Char) : s.length ≤ (escapeStr s).length := by
  induction s with
  | nil => simp [escapeStr]
  | cons c s ih =>
    have hone : 1 ≤ (escapeChar c).length := by
      unfold escapeChar
      split
      · simp
      · split
        · simp
        · split
          · simp
          · split
            · simp
            · split
              · simp
              · split
                · simp
                · split
                  · simp
                  · split <;> simp
    have : escapeStr (c :: s) = escapeChar c ++ escapeStr s := by simp [escapeStr]
    rw [this]
    simp only [List.length_cons, List.length_append]
    omega

theorem parseStringRest_u (f : Nat) (h3 h4 : Char) (d3 d4 : Nat)
    (tail : List Char)
    (hh3 : hexVal h3 = some d3) (hh4 : hexVal h4 = some d4) :
    parseStringRest (f + 1) (bsl :: 'u' :: '0' :: '0' :: h3 :: h4 :: tail) =
      (let n := ((0 * 16 + 0) * 16 + d3) * 16 + d4
       if n.isValidChar then
         (parseStringRest f tail).map (fun p => (Char.ofNat n :: p.1, p.2))
       else none) := by
  rw [show parseStringRest (f + 1) (bsl :: 'u' :: '0' :: '0' :: h3 :: h4 :: tail) =
      (match hexVal '0', hexVal '0', hexVal h3, hexVal h4 with
       | some d1, some d2, some d3', some d4' =>
         let n := ((d1 * 16 + d2) * 16 + d3') * 16 + d4'
         if n.isValidChar then
           (parseStringRest f tail).map (fun p => (Char.ofNat n :: p.1, p.2))
         else none
       | _, _, _, _ => none) from rfl]
  rw [show hexVal '0' = some 0 from rfl, hh3, hh4]

theorem parseStringRest_escape (s rest : List Char) :
    ∀ f, s.length < f →
      parseStringRest f (escapeStr s ++ dq :: rest) = some (s, rest) := by
  induction s with
  | nil =>
    intro f hf
    match f, hf with
    | g + 1, _ => rfl
  | cons c s ih =>
    intro f hf
    cases f with
    | zero => omega
    | succ g =>
      have hg : s.length < g := by
        simp only [List.length_cons] at hf
        omega
      have hes : escapeStr (c :: s) ++ dq :: rest =
          escapeChar c ++ (escapeStr s ++ dq :: rest) := by
        simp [escapeStr]
      rw [hes]
      by_cases h1 : c = dq
      · subst h1
        rw [show escapeChar dq ++ (escapeStr s ++ dq :: rest) =
            bsl :: dq :: (escapeStr s ++ dq :: rest) from rfl]
        rw [show parseStringRest (g + 1) (bsl :: dq :: (escapeStr s ++ dq :: rest)) =
            (parseStringRest g (escapeStr s ++ dq :: rest)).map
              (fun p => (dq :: p.1, p.2)) from rfl]
        rw [ih g hg]
        rfl
      · by_cases h2 : c = bsl
        · subst h2
          rw [show escapeChar bsl ++ (escapeStr s ++ dq :: rest) =
              bsl :: bsl :: (escapeStr s ++ dq :: rest) from rfl]
          rw [show parseStringRest (g + 1) (bsl :: bsl :: (escapeStr s ++ dq :: rest)) =
              (parseStringRest g (escapeStr s ++ dq :: rest)).map
                (fun p => (bsl :: p.1, p.2)) from rfl]
          rw [ih g hg]
          rfl
        · by_cases h3 : c = '\n'
          · subst h3
            rw [show escapeChar '\n' ++ (escapeStr s ++ dq :: rest) =
                bsl :: 'n' :: (escapeStr s ++ dq :: rest) from rfl]
            rw [show parseStringRest (g + 1) (bsl :: 'n' :: (escapeStr s ++ dq :: rest)) =
                (parseStringRest g (escapeStr s ++ dq :: rest)).map
                  (fun p => ('\n' :: p.1, p.2)) from rfl]
            rw [ih g hg]
            rfl
          · by_cases h4 : c = '\t'
            · subst h4
              rw [show escapeChar '\t' ++ (escapeStr s ++ dq :: rest) =
                  bsl :: 't' :: (escapeStr s ++ dq :: rest) from rfl]
              rw [show parseStringRest (g + 1) (bsl :: 't' :: (escapeStr s ++ dq :: rest)) =
                  (parseStringRest g (escapeStr s ++ dq :: rest)).map
                    (fun p => ('\t' :: p.1, p.2)) from rfl]
              rw [ih g hg]
              rfl
            · by_cases h5 : c = '\x0d'
              · subst h5
                rw [show escapeChar '\x0d' ++ (escapeStr s ++ dq :: rest) =
                    bsl :: 'r' :: (escapeStr s ++ dq :: rest) from rfl]
                rw [show parseStringRest (g + 1)
                    (bsl :: 'r' :: (escapeStr s ++ dq :: rest)) =
                    (parseStringRest g (escapeStr s ++ dq :: rest)).map
                      (fun p => ('\x0d' :: p.1, p.2)) from rfl]
                rw [ih g hg]
                rfl
              · by_cases h6 : c = '\x08'
                · subst h6
                  rw [show escapeChar '\x08' ++ (escapeStr s ++ dq :: rest) =
                      bsl :: 'b' :: (escapeStr s ++ dq :: rest) from rfl]
                  rw [show parseStringRest (g + 1)
                      (bsl :: 'b' :: (escapeStr s ++ dq :: rest)) =
                      (parseStringRest g (escapeStr s ++ dq :: rest)).map
                        (fun p => ('\x08' :: p.1, p.2)) from rfl]
                  rw [ih g hg]
                  rfl
                · by_cases h7 : c = '\x0c'
                  · subst h7
                    rw [show escapeChar '\x0c' ++ (escapeStr s ++ dq :: rest) =
                        bsl :: 'f' :: (escapeStr s ++ dq :: rest) from rfl]
                    rw [show parseStringRest (g + 1)
                        (bsl :: 'f' :: (escapeStr s ++ dq :: rest)) =
                        (parseStringRest g (escapeStr s ++ dq :: rest)).map
                          (fun p => ('\x0c' :: p.1, p.2)) from rfl]
                    rw [ih g hg]
                    rfl
                  · by_cases h8 : c.toNat < 32
                    · have hesc : escapeChar c = [bsl, 'u', '0', '0',
                          hexDigitChar (c.toNat / 16), hexDigitChar (c.toNat % 16)] := by
                        simp [escapeChar, h1, h2, h3, h4, h5, h6, h7, h8]
                      rw [hesc]
                      rw [show [bsl, 'u', '0', '0', hexDigitChar (c.toNat / 16),
                          hexDigitChar (c.toNat % 16)] ++ (escapeStr s ++ dq :: rest) =
                          bsl :: 'u' :: '0' :: '0' :: hexDigitChar (c.toNat / 16) ::
                          hexDigitChar (c.toNat % 16) :: (escapeStr s ++ dq :: rest)
                          from rfl]
                      rw [parseStringRest_u g _ _ (c.toNat / 16) (c.toNat % 16) _
                        (hexVal_hexDigitChar _ (by omega))
                        (hexVal_hexDigitChar _ (Nat.mod_lt _ (by omega)))]
                      have hn : ((0 * 16 + 0) * 16 + c.toNat / 16) * 16 + c.toNat % 16 =
                          c.toNat := by omega
                      simp only [hn]
                      rw [if_pos (show c.toNat.isValidChar from c.valid), ih g hg, Char.ofNat_toNat]
                      rfl
                    · have hesc : escapeChar c = [c] := by
                        simp [escapeChar, h1, h2, h3, h4, h5, h6, h7, h8]
                      rw [hesc]
                      rw [show [c] ++ (escapeStr s ++ dq :: rest) =
                          c :: (escapeStr s ++ dq :: rest) from rfl]
                      rw [show parseStringRest (g + 1) (c :: (escapeStr s ++ dq :: rest)) =
                          (if c = dq then some ([], escapeStr s ++ dq :: rest)
                           else if c = bsl then
                             (match escapeStr s ++ dq :: rest with
                              | [] => none
                              | e :: cs' =>
                                if e = dq then (parseStringRest g cs').map
                                  (fun p => (dq :: p.1, p.2))
                                else if e = bsl then (parseStringRest g cs').map
                                  (fun p => (bsl :: p.1, p.2))
                                else if e = '/' then (parseStringRest g cs').map
                                  (fun p => ('/' :: p.1, p.2))
                                else if e = 'b' then (parseStringRest g cs').map
                                  (fun p => ('\x08' :: p.1, p.2))
                                else if e = 'f' then (parseStringRest g cs').map
                                  (fun p => ('\x0c' :: p.1, p.2))
                                else if e = 'n' then (parseStringRest g cs').map
                                  (fun p => ('\n' :: p.1, p.2))
                                else if e = 'r' then (parseStringRest g cs').map
                                  (fun p => ('\x0d' :: p.1, p.2))
                                else if e = 't' then (parseStringRest g cs').map
                                  (fun p => ('\t' :: p.1, p.2))
                                else if e = 'u' then
                                  (match cs' with
                                   | h1 :: h2 :: h3 :: h4 :: cs'' =>
                                     (match hexVal h1, hexVal h2, hexVal h3, hexVal h4 with
                                      | some d1, some d2, some d3, some d4 =>
                                        let n := ((d1 * 16 + d2) * 16 + d3) * 16 + d4
                                        if n.isValidChar then
                                          (parseStringRest g cs'').map
                                            (fun p => (Char.ofNat n :: p.1, p.2))
                                        else none
                                      | _, _, _, _ => none)
                                   | _ => none)
                                else none)
                           else if c.toNat < 32 then none
                           else (parseStringRest g (escapeStr s ++ dq :: rest)).map
                             (fun p => (c :: p.1, p.2))) from rfl]
                      rw [if_neg h1, if_neg h2, if_neg h8, ih g hg]
                      rfl

/-! ### Delimiters, keys, and insertion order -/

theorem numTerminates_items (xs : List JValue) (rest : List Char) :
    numTerminates (serializeItems xs ++ ']' :: rest) = true := by
  cases xs with
  | nil => rfl
  | cons x xs => simp only [serializeItems]; rfl

theorem numTerminates_members (kvs : List (String × JValue)) (rest : List Char) :
    numTerminates (serializeMembers kvs ++ cbr :: rest) = true := by
  cases kvs with
  | nil => rfl
  | cons kv kvs =>
    obtain ⟨k, v⟩ := kv
    simp only [serializeMembers]
    rfl

theorem contains_false_not_mem (l : List String) (a : String)
    (h : l.contains a = false) : a ∉ l := by
  intro hm
  have hc : l.contains a = true :=
    List.contains_iff_exists_mem_beq.mpr ⟨a, hm, by simp⟩
  rw [hc] at h
  exact absurd h (by simp)

theorem keysUnique_head (a : String) (l : List String)
    (h : keysUnique (a :: l) = true) :
    (∀ b ∈ l, b ≠ a) ∧ keysUnique l = true := by
  simp only [keysUnique, Bool.and_eq_true, Bool.not_eq_true'] at h
  refine ⟨?_, h.2⟩
  intro b hb hba
  subst hba
  exact contains_false_not_mem l b h.1 hb

theorem keysUnique_middle (l1 : List String) (a : String) (l2 : List String)
    (h : keysUnique (l1 ++ a :: l2) = true) :
    (∀ b ∈ l1, b ≠ a) ∧ keysUnique (l1 ++ l2) = true := by
  induction l1 with
  | nil =>
    exact ⟨by simp, (keysUnique_head a l2 h).2⟩
  | cons c l1 ih =>
    obtain ⟨hc, hrest⟩ := keysUnique_head c (l1 ++ a :: l2) h
    obtain ⟨hl1, hl⟩ := ih hrest
    constructor
    · intro b hb
      rcases List.mem_cons.mp hb with hbc | hbl
      · subst hbc
        exact fun hba => hc a (by simp) hba.symm
      · exact hl1 b hbl
    · simp only [List.cons_append, keysUnique, Bool.and_eq_true, Bool.not_eq_true']
      refine ⟨?_, hl⟩
      cases hcont : (l1 ++ l2).contains c with
      | false => rfl
      | true =>
        exfalso
        obtain ⟨b, hb, hbeq⟩ := List.contains_iff_exists_mem_beq.mp hcont
        have hbc : c = b := by simpa using hbeq
        subst hbc
        rcases List.mem_append.mp hb with hm | hm
        · exact hc c (by simp [hm]) rfl
        · exact hc c (by simp [hm]) rfl

theorem objInsert_notMem (fs : List (String × JValue)) (k : String) (v : JValue)
    (h : ∀ kv ∈ fs, kv.1 ≠ k) : objInsert fs k v = fs ++ [(k, v)] := by
  induction fs with
  | nil => rfl
  | cons kv fs ih =>
    obtain ⟨k1, v1⟩ := kv
    have hk1 : k1 ≠ k := h (k1, v1) (List.mem_cons_self _ _)
    simp only [objInsert, if_neg hk1, List.cons_append]
    rw [ih (fun kv' h' => h kv' (List.mem_cons_of_mem _ h'))]

theorem string_mk_toList (s : String) : String.mk s.toList = s := by
  cases s
  rfl

mutual

theorem parseValue_serialize : ∀ (v : JValue) (rest : List Char) (f : Nat),
    jwf v = true → numTerminates rest = true → jsize v ≤ f →
    parseValue f (serializeVal v ++ rest) = some (v, rest)
  | v, _, 0, _, _, hf => by
    exact absurd hf (by have := jsize_pos v; omega)
  | .null, rest, g + 1, _, _, _ => by
    simp only [serializeVal]; rfl
  | .bool b, rest, g + 1, _, _, _ => by
    cases b <;> (simp only [serializeVal]; rfl)
  | .num n, rest, g + 1, _, hrest, _ => by
    simp only [serializeVal]
    exact parseValue_intChars g n rest hrest
  | .str s, rest, g + 1, _, _, _ => by
    simp only [serializeVal]
    have hsh : (dq :: escapeStr s.toList ++ [dq]) ++ rest =
        dq :: (escapeStr s.toList ++ dq :: rest) := by
      simp
    rw [hsh]
    rw [show parseValue (g + 1) (dq :: (escapeStr s.toList ++ dq :: rest)) =
        (parseStringRest (escapeStr s.toList ++ dq :: rest).length
          (escapeStr s.toList ++ dq :: rest)).map
          (fun p => (.str (String.mk p.1), p.2)) from rfl]
    rw [parseStringRest_escape s.toList rest _ (by
      have := escapeStr_length s.toList
      simp only [List.length_append, List.length_cons]
      omega)]
    simp [string_mk_toList]
  | .arr [], rest, g + 1, _, _, _ => by
    simp only [serializeVal]; rfl
  | .arr (x :: xs), rest, g + 1, hwf, _, hf => by
    simp only [serializeVal]
    have hx : jwf x = true ∧ jwfList xs = true := by
      simpa [jwf, jwfList, Bool.and_eq_true] using hwf
    have hfs : 1 + (1 + jsize x + jsizeList xs) ≤ g + 1 := by
      simpa [jsize, jsizeList] using hf
    have hsh : ('[' :: (serializeVal x ++ serializeItems xs) ++ [']']) ++ rest =
        '[' :: (serializeVal x ++ (serializeItems xs ++ ']' :: rest)) := by
      simp
    rw [hsh]
    rw [show parseValue (g + 1)
        ('[' :: (serializeVal x ++ (serializeItems xs ++ ']' :: rest))) =
        (match skipWs (serializeVal x ++ (serializeItems xs ++ ']' :: rest)) with
         | c2 :: cs2 =>
           if c2 = ']' then some (.arr [], cs2)
           else parseItems g (serializeVal x ++ (serializeItems xs ++ ']' :: rest)) []
         | [] =>
           parseItems g (serializeVal x ++ (serializeItems xs ++ ']' :: rest)) [])
        from rfl]
    have hpx := parseValue_serialize x (serializeItems xs ++ ']' :: rest) g hx.1
      (numTerminates_items xs rest) (by have := jsizeList_pos xs; omega)
    cases hsw : skipWs (serializeVal x ++ (serializeItems xs ++ ']' :: rest)) with
    | nil =>
      rw [parseValue_nil_skip g _ hsw] at hpx
      exact absurd hpx (by simp)
    | cons c2 cs2 =>
      by_cases hc2 : c2 = ']'
      · subst hc2
        rw [parseValue_skip_rsq g _ cs2 hsw] at hpx
        exact absurd hpx (by simp)
      · have hnext := parseItems_serialize x xs [] rest g hx.1 hx.2
          (by simp only [jsizeList]; omega)
        have hgoal : (if c2 = ']' then some (JValue.arr [], cs2)
            else parseItems g (serializeVal x ++ (serializeItems xs ++ ']' :: rest)) []) =
            some (JValue.arr (x :: xs), rest) := by
          rw [if_neg hc2]
          simpa using hnext
        exact hgoal
  | .obj [], rest, g + 1, _, _, _ => by
    simp only [serializeVal]; rfl
  | .obj ((k, v) :: kvs), rest, g + 1, hwf, _, hf => by
    simp only [serializeVal]
    have hx : keysUnique (((k, v) :: kvs).map (fun p => p.1)) = true ∧
        jwf v = true ∧ jwfMembers kvs = true := by
      have h1 : keysUnique (((k, v) :: kvs).map (fun p => p.1)) = true ∧
          jwfMembers ((k, v) :: kvs) = true := by
        simpa [jwf, Bool.and_eq_true] using hwf
      have h2 : jwf v = true ∧ jwfMembers kvs = true := by
        simpa [jwfMembers, Bool.and_eq_true] using h1.2
      exact ⟨h1.1, h2.1, h2.2⟩
    have hfs : 1 + (1 + jsize v + jsizeMembers kvs) ≤ g + 1 := by
      simpa [jsize, jsizeMembers] using hf
    have hsh : (obr :: ((dq :: escapeStr k.toList ++ [dq]) ++
        ':' :: serializeVal v ++ serializeMembers kvs) ++ [cbr]) ++ rest =
        obr :: dq :: (escapeStr k.toList ++
          (dq :: ':' :: (serializeVal v ++ (serializeMembers kvs ++ cbr :: rest)))) := by
      simp
    rw [hsh]
    rw [show parseValue (g + 1) (obr :: dq :: (escapeStr k.toList ++
        (dq :: ':' :: (serializeVal v ++ (serializeMembers kvs ++ cbr :: rest))))) =
        parseMembers g (dq :: (escapeStr k.toList ++
          (dq :: ':' :: (serializeVal v ++ (serializeMembers kvs ++ cbr :: rest))))) []
        from rfl]
    have hnext := parseMembers_serialize k v kvs [] rest g hx.2.1 hx.2.2
      (by simpa using hx.1) (by simp only [jsizeMembers]; omega)
    simpa using hnext
termination_by _ _ f => f
decreasing_by
  all_goals omega

theorem parseItems_serialize : ∀ (x : JValue) (xs : List JValue)
    (acc : List JValue) (rest : List Char) (f : Nat),
    jwf x = true → jwfList xs = true → jsizeList (x :: xs) ≤ f →
    parseItems f (serializeVal x ++ (serializeItems xs ++ ']' :: rest)) acc =
      some (.arr (acc ++ x :: xs), rest)
  | x, xs, acc, rest, 0, _, _, hf => by
    exact absurd hf (by simp only [jsizeList]; omega)
  | x, xs, acc, rest, g + 1, hwf, hwfl, hf => by
    have hfs : 1 + jsize x + jsizeList xs ≤ g + 1 := by
      simpa [jsizeList] using hf
    rw [show parseItems (g + 1)
        (serializeVal x ++ (serializeItems xs ++ ']' :: rest)) acc =
        (match parseValue g (serializeVal x ++ (serializeItems xs ++ ']' :: rest)) with
         | none => none
         | some (v, r) =>
           match skipWs r with
           | [] => none
           | d :: r2 =>
             if d = ',' then parseItems g r2 (acc ++ [v])
             else if d = ']' then some (.arr (acc ++ [v]), r2)
             else none) from rfl]
    rw [parseValue_serialize x (serializeItems xs ++ ']' :: rest) g hwf
      (numTerminates_items xs rest) (by have := jsizeList_pos xs; omega)]
    match xs, hwfl, hfs with
    | [], _, _ =>
      rw [show serializeItems [] ++ ']' :: rest = ']' :: rest from rfl]
      rfl
    | y :: ys, hwfl, hfs =>
      have hy : jwf y = true ∧ jwfList ys = true := by
        simpa [jwfList, Bool.and_eq_true] using hwfl
      have hsh : serializeItems (y :: ys) ++ ']' :: rest =
          ',' :: (serializeVal y ++ (serializeItems ys ++ ']' :: rest)) := by
        simp [serializeItems]
      rw [hsh]
      have hnext := parseItems_serialize y ys (acc ++ [x]) rest g hy.1 hy.2 (by
        have := jsize_pos x
        simp only [jsizeList] at hfs ⊢
        omega)
      have hnext' : parseItems g (serializeVal y ++ (serializeItems ys ++ ']' :: rest))
          (acc ++ [x]) = some (JValue.arr (acc ++ x :: y :: ys), rest) := by
        simpa using hnext
      exact hnext'
termination_by _ _ _ _ f => f
decreasing_by
  all_goals omega

theorem parseMembers_serialize : ∀ (k : String) (v : JValue)
    (kvs : List (String × JValue)) (acc : List (String × JValue))
    (rest : List Char) (f : Nat),
    jwf v = true → jwfMembers kvs = true →
    keysUnique ((acc ++ (k, v) :: kvs).map (fun p => p.1)) = true →
    jsizeMembers ((k, v) :: kvs) ≤ f →
    parseMembers f (dq :: (escapeStr k.toList ++
        (dq :: ':' :: (serializeVal v ++ (serializeMembers kvs ++ cbr :: rest))))) acc =
      some (.obj (acc ++ (k, v) :: kvs), rest)
  | k, v, kvs, acc, rest, 0, _, _, _, hf => by
    exact absurd hf (by simp only [jsizeMembers]; omega)
  | k, v, kvs, acc, rest, g + 1, hwf, hwfm, huniq, hf => by
    have hfs : 1 + jsize v + jsizeMembers kvs ≤ g + 1 := by
      simpa [jsizeMembers] using hf
    have hkacc : ∀ kv ∈ acc, kv.1 ≠ k := by
      intro kv hkv
      have hmid := keysUnique_middle (acc.map (fun p => p.1)) k
        (kvs.map (fun p => p.1)) (by simpa using huniq)
      exact hmid.1 kv.1 (List.mem_map.mpr ⟨kv, hkv, rfl⟩)
    rw [show parseMembers (g + 1) (dq :: (escapeStr k.toList ++
        (dq :: ':' :: (serializeVal v ++ (serializeMembers kvs ++ cbr :: rest))))) acc =
        (match parseStringRest (escapeStr k.toList ++
            (dq :: ':' :: (serializeVal v ++ (serializeMembers kvs ++ cbr :: rest)))).length
            (escapeStr k.toList ++
            (dq :: ':' :: (serializeVal v ++ (serializeMembers kvs ++ cbr :: rest)))) with
         | none => none
         | some (kk, r1) =>
           match skipWs r1 with
           | [] => none
           | d0 :: r2 =>
             if d0 = ':' then
               match parseValue g r2 with
               | none => none
               | some (vv, r3) =>
                 match skipWs r3 with
                 | [] => none
                 | d :: r4 =>
                   if d = ',' then parseMembers g r4 (objInsert acc (String.mk kk) vv)
                   else if d = cbr then
                     some (.obj (objInsert acc (String.mk kk) vv), r4)
                   else none
             else none) from rfl]
    rw [parseStringRest_escape k.toList
      (':' :: (serializeVal v ++ (serializeMembers kvs ++ cbr :: rest))) _ (by
        have := escapeStr_length k.toList
        simp only [List.length_append, List.length_cons]
        omega)]
    change (match parseValue g (serializeVal v ++ (serializeMembers kvs ++ cbr :: rest)) with
        | none => none
        | some (vv, r3) =>
          match skipWs r3 with
          | [] => none
          | d :: r4 =>
            if d = ',' then parseMembers g r4 (objInsert acc (String.mk k.toList) vv)
            else if d = cbr then
              some (.obj (objInsert acc (String.mk k.toList) vv), r4)
            else none) = _
    rw [parseValue_serialize v (serializeMembers kvs ++ cbr :: rest) g hwf
      (numTerminates_members kvs rest) (by have := jsizeMembers_pos kvs; omega)]
    match kvs, hwfm, huniq, hfs with
    | [], _, huniq, _ =>
      change some (JValue.obj (objInsert acc (String.mk k.toList) v), rest) = _
      rw [string_mk_toList, objInsert_notMem acc k v hkacc]
    | (k2, v2) :: kvs2, hwfm, huniq, hfs =>
      have hkv2 : jwf v2 = true ∧ jwfMembers kvs2 = true := by
        simpa [jwfMembers, Bool.and_eq_true] using hwfm
      have hsh : serializeMembers ((k2, v2) :: kvs2) ++ cbr :: rest =
          ',' :: (dq :: (escapeStr k2.toList ++
            (dq :: ':' :: (serializeVal v2 ++ (serializeMembers kvs2 ++ cbr :: rest))))) := by
        simp [serializeMembers]
      rw [hsh]
      change parseMembers g (dq :: (escapeStr k2.toList ++
          (dq :: ':' :: (serializeVal v2 ++ (serializeMembers kvs2 ++ cbr :: rest)))))
          (objInsert acc (String.mk k.toList) v) = _
      rw [string_mk_toList, objInsert_notMem acc k v hkacc]
      have hnext := parseMembers_serialize k2 v2 kvs2 (acc ++ [(k, v)]) rest g
        hkv2.1 hkv2.2 (by simpa using huniq) (by
          have := jsize_pos v
          simp only [jsizeMembers] at hfs ⊢
          omega)
      have hnext' : parseMembers g (dq :: (escapeStr k2.toList ++
          (dq :: ':' :: (serializeVal v2 ++ (serializeMembers kvs2 ++ cbr :: rest)))))
          (acc ++ [(k, v)]) =
          some (JValue.obj (acc ++ (k, v) :: (k2, v2) :: kvs2), rest) := by
        simpa using hnext
      exact hnext'
termination_by _ _ _ _ _ f => f
decreasing_by
  all_goals omega

end

theorem natChars_length_pos (m : Nat) : 0 < (natChars m).length := by
  by_cases h : m < 10
  · simp [natChars, natCharsAux, h]
  · simp [natChars, natCharsAux, h]

theorem intChars_length_pos (n : Int) : 0 < (intChars n).length := by
  by_cases h : n < 0
  · simp [intChars, h]
  · simp [intChars, h, natChars_length_pos]

mutual

theorem jsize_le_serialize : ∀ v : JValue, jsize v ≤ 2 * (serializeVal v).length
  | .null => by simp [jsize, serializeVal]
  | .bool b => by cases b <;> simp [jsize, serializeVal]
  | .num n => by
    have := intChars_length_pos n
    simp only [jsize, serializeVal]
    omega
  | .str s => by
    simp only [jsize, serializeVal, List.length_cons, List.length_append]
    omega
  | .arr [] => by simp [jsize, jsizeList, serializeVal]
  | .arr (x :: xs) => by
    have h1 := jsize_le_serialize x
    have h2 := jsizeList_le_serialize xs
    simp only [jsize, jsizeList, serializeVal, List.length_cons, List.length_append]
    omega
  | .obj [] => by simp [jsize, jsizeMembers, serializeVal]
  | .obj ((k, v) :: kvs) => by
    have h1 := jsize_le_serialize v
    have h2 := jsizeMembers_le_serialize kvs
    simp only [jsize, jsizeMembers, serializeVal, List.length_cons, List.length_append]
    omega

theorem jsizeList_le_serialize : ∀ xs : List JValue,
    jsizeList xs ≤ 2 * (serializeItems xs).length + 1
  | [] => by simp [jsizeList, serializeItems]
  | x :: xs => by
    have h1 := jsize_le_serialize x
    have h2 := jsizeList_le_serialize xs
    simp only [jsizeList, serializeItems, List.length_cons, List.length_append]
    omega

theorem jsizeMembers_le_serialize : ∀ kvs : List (String × JValue),
    jsizeMembers kvs ≤ 2 * (serializeMembers kvs).length + 1
  | [] => by simp [jsizeMembers, serializeMembers]
  | (k, v) :: kvs => by
    have h1 := jsize_le_serialize v
    have h2 := jsizeMembers_le_serialize kvs
    simp only [jsizeMembers, serializeMembers, List.length_cons, List.length_append]
    omega

end

/-- The serializer/parser round trip at the `json.loads` level: parsing a
serialized well-formed value recovers it exactly. -/
theorem jloads_serialize (v : JValue) (hwf : jwf v = true) :
    jloads (serializeVal v) = some v := by
  have h := parseValue_serialize v [] (2 * (serializeVal v).length + 2) hwf rfl
    (by have := jsize_le_serialize v; omega)
  rw [List.append_nil] at h
  unfold jloads
  rw [h]
  rfl

/-! ### `_safe_parse_json` on serialized objects -/

theorem serializeVal_obj_shape (fs : List (String × JValue)) :
    ∃ mid, serializeVal (.obj fs) = obr :: (mid ++ [cbr]) := by
  cases fs with
  | nil => exact ⟨[], rfl⟩
  | cons kv kvs =>
    obtain ⟨k, v⟩ := kv
    refine ⟨(dq :: escapeStr k.toList ++ [dq]) ++
      ':' :: serializeVal v ++ serializeMembers kvs, ?_⟩
    simp [serializeVal]

theorem splitAtSub_not_bq (s : List Char) (h : bq ∉ s) :
    splitAtSub fence3 s = none := by
  induction s with
  | nil => rfl
  | cons c cs ih =>
    have hc : (bq = c) = False := by
      simp only [eq_iff_iff, iff_false]
      exact fun hh => h (hh ▸ List.mem_cons_self c cs)
    have hsw : startsWith fence3 (c :: cs) = false := by
      simp [fence3, startsWith, hc]
    rw [show splitAtSub fence3 (c :: cs) =
        (if startsWith fence3 (c :: cs) then some ([], (c :: cs).drop fence3.length)
         else match splitAtSub fence3 cs with
              | some (a, b) => some (c :: a, b)
              | none => none) from rfl]
    rw [hsw, if_neg (by simp), ih (fun hm => h (List.mem_cons_of_mem _ hm))]

theorem splitAtSub_boundary (a y : List Char) (ha : bq ∉ a) :
    splitAtSub fence3 (a ++ (fence3 ++ y)) = some (a, y) := by
  induction a with
  | nil =>
    rw [List.nil_append]
    rw [show splitAtSub fence3 (fence3 ++ y) =
        (if startsWith fence3 (fence3 ++ y) then
          some ([], (fence3 ++ y).drop fence3.length)
         else match splitAtSub fence3 (bq :: bq :: y) with
              | some (a, b) => some (bq :: a, b)
              | none => none) from rfl]
    rw [if_pos (by simp [fence3, startsWith])]
    rfl
  | cons c cs ih =>
    have hc : (bq = c) = False := by
      simp only [eq_iff_iff, iff_false]
      exact fun hh => ha (hh ▸ List.mem_cons_self c cs)
    have hsw : startsWith fence3 (c :: (cs ++ (fence3 ++ y))) = false := by
      simp [fence3, startsWith, hc]
    rw [List.cons_append]
    rw [show splitAtSub fence3 (c :: (cs ++ (fence3 ++ y))) =
        (if startsWith fence3 (c :: (cs ++ (fence3 ++ y))) then
          some ([], (c :: (cs ++ (fence3 ++ y))).drop fence3.length)
         else match splitAtSub fence3 (cs ++ (fence3 ++ y)) with
              | some (a, b) => some (c :: a, b)
              | none => none) from rfl]
    rw [hsw, if_neg (by simp), ih (fun hm => ha (List.mem_cons_of_mem _ hm))]

theorem fencedBlocks_none (n : Nat) (s : List Char)
    (h : splitAtSub fence3 s = none) : fencedBlocks n s = [] := by
  cases n with
  | zero => rfl
  | succ m => simp only [fencedBlocks, h]

theorem dropWhile_not_ws (c : Char) (l : List Char) (h : isWsChar c = false) :
    (c :: l).dropWhile isWsChar = c :: l := by
  simp [List.dropWhile, h]

theorem braceSpan_obj (mid : List Char) :
    braceSpan (obr :: (mid ++ [cbr])) = some (obr :: (mid ++ [cbr])) := by
  unfold braceSpan
  have h1 : (obr :: (mid ++ [cbr])).dropWhile (fun c => c != obr) =
      obr :: (mid ++ [cbr]) := by
    simp [List.dropWhile]
  rw [h1]
  change takeToLastBrace (obr :: (mid ++ [cbr])) = _
  unfold takeToLastBrace
  have h2 : (obr :: (mid ++ [cbr])).reverse = cbr :: (mid.reverse ++ [obr]) := by
    simp
  rw [h2]
  have h3 : (cbr :: (mid.reverse ++ [obr])).dropWhile (fun c => c != cbr) =
      cbr :: (mid.reverse ++ [obr]) := by
    simp [List.dropWhile]
  rw [h3]
  change some ((cbr :: (mid.reverse ++ [obr])).reverse) = _
  simp

theorem pyStrip_obj (mid : List Char) :
    pyStrip (obr :: (mid ++ [cbr])) = obr :: (mid ++ [cbr]) := by
  unfold pyStrip
  have h1 : (obr :: (mid ++ [cbr])).dropWhile isWsChar = obr :: (mid ++ [cbr]) :=
    dropWhile_not_ws _ _ (by decide)
  rw [h1]
  have h2 : (obr :: (mid ++ [cbr])).reverse = cbr :: (mid.reverse ++ [obr]) := by
    simp
  rw [h2]
  rw [dropWhile_not_ws _ _ (by decide)]
  simp

theorem pyStrip_obj_newline (mid : List Char) :
    pyStrip ((obr :: (mid ++ [cbr])) ++ ['\n']) = obr :: (mid ++ [cbr]) := by
  unfold pyStrip
  have h1 : ((obr :: (mid ++ [cbr])) ++ ['\n']).dropWhile isWsChar =
      (obr :: (mid ++ [cbr])) ++ ['\n'] := by
    rw [List.cons_append]
    exact dropWhile_not_ws _ _ (by decide)
  rw [h1]
  have h2 : ((obr :: (mid ++ [cbr])) ++ ['\n']).reverse =
      '\n' :: cbr :: (mid.reverse ++ [obr]) := by
    simp
  rw [h2]
  have h3 : ('\n' :: cbr :: (mid.reverse ++ [obr])).dropWhile isWsChar =
      cbr :: (mid.reverse ++ [obr]) := by
    rw [List.dropWhile_cons, if_pos (by decide : isWsChar '\n' = true)]
    exact dropWhile_not_ws _ _ (by decide)
  rw [h3]
  simp

theorem fencedBlocks_fenced_obj (pre post mid : List Char) (g : Nat)
    (hpre : bq ∉ pre) (hmid : bq ∉ obr :: (mid ++ [cbr])) :
    fencedBlocks (g + 1)
      (pre ++ (fence3 ++ ('j' :: 's' :: 'o' :: 'n' :: '\n' ::
        ((obr :: (mid ++ [cbr])) ++ '\n' :: (fence3 ++ post))))) =
      ((obr :: (mid ++ [cbr])) ++ ['\n']) :: fencedBlocks g post := by
  have h1 := splitAtSub_boundary pre
    ('j' :: 's' :: 'o' :: 'n' :: '\n' ::
      ((obr :: (mid ++ [cbr])) ++ '\n' :: (fence3 ++ post))) hpre
  have h2 : ((obr :: (mid ++ [cbr])) ++ '\n' :: (fence3 ++ post)) =
      ((obr :: (mid ++ [cbr])) ++ ['\n']) ++ (fence3 ++ post) := by simp
  have h3 : bq ∉ (obr :: (mid ++ [cbr])) ++ ['\n'] := by
    intro hm
    rcases List.mem_append.mp hm with hm1 | hm2
    · exact hmid hm1
    · simp at hm2
      exact absurd hm2 (by decide)
  have h4 := splitAtSub_boundary ((obr :: (mid ++ [cbr])) ++ ['\n']) post h3
  simp only [fencedBlocks, h1]
  change (match splitAtSub fence3
      ((obr :: (mid ++ [cbr])) ++ '\n' :: (fence3 ++ post)) with
    | none => []
    | some (body, rest4) => body :: fencedBlocks g rest4) = _
  rw [h2, h4]

/-- C6 (amended): for every well-formed structured value (an object, with
recursively unique keys) whose serialization contains no backtick,
`_safe_parse_json` round-trips: parsing the serialized text returns the
value itself; and for text consisting of backtick-free prose, then a
fenced ```json block holding the serialized object and a closing fence,
then arbitrary trailing text, parsing recovers the embedded object.
(Unrestricted, the round trip fails: a well-formed value whose own
serialization contains a backtick fence is misparsed — see the
counterexample.) -/
theorem C6_parser_roundtrip (fs : List (String × JValue)) (pre post : List Char)
    (hwf : jwf (.obj fs) = true)
    (hnb : bq ∉ serializeVal (.obj fs))
    (hpre : bq ∉ pre) :
    safe_parse_json (serializeVal (.obj fs)) = .obj fs ∧
    safe_parse_json (pre ++ (fence3 ++ ('j' :: 's' :: 'o' :: 'n' :: '\n' ::
      (serializeVal (.obj fs) ++ '\n' :: (fence3 ++ post))))) = .obj fs := by
  obtain ⟨mid, hmid⟩ := serializeVal_obj_shape fs
  have hj : jloads (pyStrip (obr :: (mid ++ [cbr]))) = some (.obj fs) := by
    rw [pyStrip_obj, ← hmid]
    exact jloads_serialize _ hwf
  rw [hmid] at hnb ⊢
  constructor
  · have hfb : fencedBlocks (obr :: (mid ++ [cbr])).length (obr :: (mid ++ [cbr])) =
        [] := fencedBlocks_none _ _ (splitAtSub_not_bq _ hnb)
    have hb := braceSpan_obj mid
    have htc : tryCandidates [obr :: (mid ++ [cbr])] = some (.obj fs) := by
      rw [show tryCandidates [obr :: (mid ++ [cbr])] =
          (match jloads (pyStrip (obr :: (mid ++ [cbr]))) with
           | some v => some v
           | none => tryCandidates []) from rfl, hj]
    simp only [safe_parse_json, hfb, hb, List.nil_append, htc]
  · have hj2 : jloads (pyStrip ((obr :: (mid ++ [cbr])) ++ ['\n'])) =
        some (.obj fs) := by
      rw [pyStrip_obj_newline, ← hmid]
      exact jloads_serialize _ hwf
    have htc2 : ∀ L, tryCandidates (((obr :: (mid ++ [cbr])) ++ ['\n']) :: L) =
        some (.obj fs) := by
      intro L
      rw [show tryCandidates (((obr :: (mid ++ [cbr])) ++ ['\n']) :: L) =
          (match jloads (pyStrip ((obr :: (mid ++ [cbr])) ++ ['\n'])) with
           | some v => some v
           | none => tryCandidates L) from rfl, hj2]
    simp only [safe_parse_json]
    cases hT : (pre ++ (fence3 ++ ('j' :: 's' :: 'o' :: 'n' :: '\n' ::
        ((obr :: (mid ++ [cbr])) ++ '\n' :: (fence3 ++ post))))).length with
    | zero => simp [fence3] at hT
    | succ g =>
      rw [fencedBlocks_fenced_obj pre post mid g hpre hnb,
        List.cons_append, htc2]

/-- Counterexample to C6 as stated: a well-formed object whose single string
value contains a backtick fence.  Its serialization is valid structured
data, yet the fenced-block regex finds the body `0` between the backticks,
so parsing returns the number 0 rather than the object. -/
theorem C6_parser_roundtrip_counterexample :
    jwf (.obj [("a", .str (String.mk (fence3 ++ ['0'] ++ fence3)))]) = true ∧
    safe_parse_json (serializeVal
      (.obj [("a", .str (String.mk (fence3 ++ ['0'] ++ fence3)))])) = .num 0 ∧
    JValue.num 0 ≠
      JValue.obj [("a", .str (String.mk (fence3 ++ ['0'] ++ fence3)))] :=
  ⟨rfl, rfl, fun h => JValue.noConfusion h⟩

/-- Witness: the amended round trip applied to the object with one boolean
field, with concrete backtick-free prose around the fenced block. -/
theorem C6_parser_roundtrip_witness :
    safe_parse_json (serializeVal (.obj [("k", .bool true)])) =
      .obj [("k", .bool true)] ∧
    safe_parse_json ("prose ".toList ++ (fence3 ++ ('j' :: 's' :: 'o' :: 'n' ::
      '\n' :: (serializeVal (.obj [("k", .bool true)]) ++ '\n' ::
        (fence3 ++ " after".toList))))) = .obj [("k", .bool true)] :=
  C6_parser_roundtrip [("k", .bool true)] "prose ".toList " after".toList rfl
    (by decide) (by decide)
